import Mathlib

/-!
Verification development for the YouTube research automation tool.

Shallow embedding of the ingestion pipeline: URL normalisation
(`extract_video_id` in `src/youtube_utils.py`), subtitle stripping
(`srt_to_plain_text`), the unauthenticated caption acquirer
(`get_video_captions`), the authenticated client with its quota counter
(`YouTubeClient` in `src/youtube_client.py`), the transcript truncation in
the content extractor (`MotifCoder.code_transcript` in `src/ai_coder.py`),
the persistence helpers (`src/database.py`) and the per-video orchestrator
(`process_video_url` in `pages/add_videos.py`).

Python strings are modelled as `List Char`; machine-level text encoding is
out of scope.  External remote services (YouTube Data API, the transcript
scraping API, the generation API) are modelled by passing their responses
as explicit inputs.
-/

namespace YTTool

/-! ## Character classes (ASCII fragment of the Python semantics) -/

/-- Python `\d` on the inputs in scope: an ASCII decimal digit. -/
def isPyDigit (c : Char) : Bool := '0' ≤ c && c ≤ '9'

/-- Python `str.strip()` / `\s` whitespace set (ASCII fragment). -/
def isPySpace (c : Char) : Bool :=
  c = ' ' || c = '\t' || c = '\n' || c = '\r' || c = '\x0b' || c = '\x0c'

/-- The character class `[a-zA-Z0-9_-]` used for video identifiers. -/
def idChar (c : Char) : Bool :=
  ('a' ≤ c && c ≤ 'z') || ('A' ≤ c && c ≤ 'Z') || isPyDigit c || c = '-' || c = '_'

/-! ## Generic list/string helpers mirroring Python primitives -/

/-- `pat.isPrefixOf l` as an executable Bool. -/
def startsWithSeq : List Char → List Char → Bool
  | [], _ => true
  | _ :: _, [] => false
  | p :: ps, c :: cs => p = c && startsWithSeq ps cs

/-- Python `pat in s`: substring containment. -/
def containsSeq (pat : List Char) (l : List Char) : Bool :=
  match l with
  | [] => startsWithSeq pat []
  | _ :: cs => startsWithSeq pat l || containsSeq pat cs

/-- Python `s.strip()` (ASCII whitespace fragment). -/
def pyStrip (l : List Char) : List Char :=
  ((l.dropWhile isPySpace).reverse.dropWhile isPySpace).reverse

/-- Tokeniser state machine for `s.split()`: `acc` is the reversed
current token. -/
def pySplitGo (acc : List Char) : List Char → List (List Char)
  | [] => if acc.isEmpty then [] else [acc.reverse]
  | c :: cs =>
    if isPySpace c then
      if acc.isEmpty then pySplitGo [] cs else acc.reverse :: pySplitGo [] cs
    else pySplitGo (c :: acc) cs

/-- Python `s.split()` with no argument: split on whitespace runs,
dropping empty tokens. -/
def pySplit (l : List Char) : List (List Char) := pySplitGo [] l

/-- `re.sub(r'\s+', ' ', s)` as a state machine: `inRun` records whether
the previous character belonged to a whitespace run (whose single
replacement space has already been emitted). -/
def collapseWsGo (inRun : Bool) : List Char → List Char
  | [] => []
  | c :: cs =>
    if isPySpace c then
      if inRun then collapseWsGo true cs else ' ' :: collapseWsGo true cs
    else c :: collapseWsGo false cs

/-- `re.sub(r'\s+', ' ', s)`: replace each maximal whitespace run by a
single space. -/
def collapseWs (l : List Char) : List Char := collapseWsGo false l

/-! ## `parse_iso_duration` (src/youtube_utils.py)

`re.compile(r'PT(?:(\d+)H)?(?:(\d+)M)?(?:(\d+)S)?').match(s)`: anchored
match of the literal `PT` followed by optional digit groups suffixed by
`H`, `M`, `S`; a missing match yields `0`. -/

/-- Try to read a maximal digit run followed by the literal `suf`;
on success return the value and remainder, otherwise leave the input
untouched (the regex group is optional). -/
def grabNumSuffix (suf : Char) (l : List Char) : Nat × List Char :=
  let ds := l.takeWhile isPyDigit
  let rest := l.dropWhile isPyDigit
  if ds.isEmpty then (0, l)
  else
    match rest with
    | c :: cs => if c = suf then (ds.foldl (fun a c => a * 10 + (c.toNat - 48)) 0, cs)
                 else (0, l)
    | [] => (0, l)

/-- `parse_iso_duration` from `src/youtube_utils.py`. -/
def parse_iso_duration (l : List Char) : Nat :=
  match l with
  | 'P' :: 'T' :: rest =>
    let (h, r1) := grabNumSuffix 'H' rest
    let (m, r2) := grabNumSuffix 'M' r1
    let (s, _) := grabNumSuffix 'S' r2
    h * 3600 + m * 60 + s
  | _ => 0

/-! ## Caption track selection (src/youtube_client.py, get_best_caption_track) -/

/-- One entry of the list produced by `YouTubeClient.list_captions`. -/
structure CaptionTrack where
  trackId : List Char
  language : List Char
  name : List Char
  is_auto_generated : Bool
deriving DecidableEq, Repr

/-- `caption['language'].startswith('en')`. -/
def trackIsEnglish (c : CaptionTrack) : Bool := startsWithSeq "en".data c.language

/-- `get_best_caption_track` from `src/youtube_client.py`, with the track
list (the result of the `list_captions` remote call) passed explicitly:
manual English, then any manual, then auto English, then any auto. -/
def get_best_caption_track (captions : List CaptionTrack) : Option CaptionTrack :=
  if captions.isEmpty then none
  else
    let manual := captions.filter (fun c => !c.is_auto_generated)
    let auto := captions.filter (fun c => c.is_auto_generated)
    match manual.find? trackIsEnglish with
    | some c => some c
    | none =>
      match manual with
      | c :: _ => some c
      | [] =>
        match auto.find? trackIsEnglish with
        | some c => some c
        | none =>
          match auto with
          | c :: _ => some c
          | [] => none

/-! ## Content extractor truncation (src/ai_coder.py, code_transcript) -/

/-- `max_length = 50000` in `MotifCoder.code_transcript`. -/
def maxTranscriptChars : Nat := 50000

/-- The truncation marker `"\n\n[TRUNCATED]"` appended in `code_transcript`. -/
def truncationMarker : List Char := "\n\n[TRUNCATED]".data

/-- The transcript text actually submitted to the generation call in
`MotifCoder.code_transcript`: texts longer than `max_length` are cut to
the first `max_length` characters and the marker is appended. -/
def code_transcript_submitted (t : List Char) : List Char :=
  if t.length > maxTranscriptChars then t.take maxTranscriptChars ++ truncationMarker
  else t

/-- `MotifCoder.get_token_usage_estimate`: total token estimate
`len(text) // 4 + 200 + 800` (the cost figure is a float and is not
modelled). -/
def get_token_usage_estimate_tokens (t : List Char) : Nat :=
  t.length / 4 + 200 + 800

/-! ## Subtitle stripping (src/youtube_utils.py, srt_to_plain_text)

The function applies three `re.sub` passes and a final `strip()`:
1. `re.sub(r'^\d+\n', '', s, flags=re.MULTILINE)` — since `\d+` is
   immediately followed by `\n` and `^` matches exactly at line starts,
   the non-overlapping matches are precisely the newline-terminated lines
   consisting solely of digits; each is deleted together with its newline.
2. `re.sub(r'\d{2}:\d{2}:\d{2},\d{3} --> \d{2}:\d{2}:\d{2},\d{3}\n', '', s)`
   — the pattern is 29 newline-free characters followed by `\n`, so every
   match is a 29-character timestamp-shaped suffix of a line together with
   the newline that ends the line.
3. `re.sub(r'\n{3,}', '\n\n', s)` — each maximal run of ≥ 3 newlines is
   replaced by exactly two.
Both line-oriented passes are modelled on the `splitOnNl` decomposition
(`s = joinNl (splitOnNl s)`, where only the last part lacks a trailing
newline). -/

/-- Split at every newline; the result is always nonempty and the input
is `joinNl` of it. -/
def splitOnNl : List Char → List (List Char)
  | [] => [[]]
  | c :: cs =>
    if c = '\n' then [] :: splitOnNl cs
    else
      match splitOnNl cs with
      | [] => [[c]]
      | p :: ps => (c :: p) :: ps

/-- Rejoin parts with single newlines. -/
def joinNl : List (List Char) → List Char
  | [] => []
  | [p] => p
  | p :: ps => p ++ '\n' :: joinNl ps

/-- A line matched by `^\d+\n`: nonempty and all digits (the trailing
newline is the part separator). -/
def isSeqLine (p : List Char) : Bool := !p.isEmpty && p.all isPyDigit

/-- Delete every newline-terminated all-digit line (pass 1); the final
part has no trailing newline and is never a match. -/
def keepNonSeq : List (List Char) → List (List Char)
  | [] => []
  | [last] => [last]
  | p :: ps => if isSeqLine p then keepNonSeq ps else p :: keepNonSeq ps

/-- Pass 1 of `srt_to_plain_text`. -/
def stripSeqNums (l : List Char) : List Char := joinNl (keepNonSeq (splitOnNl l))

/-- The 29 newline-free characters of
`\d{2}:\d{2}:\d{2},\d{3} --> \d{2}:\d{2}:\d{2},\d{3}`. -/
def tsShape29 : List Char → Bool
  | [a1, a2, b1, a3, a4, b2, a5, a6, b3, a7, a8, a9,
     s1, d1, d2, g1, s2,
     c1, c2, e1, c3, c4, e2, c5, c6, e3, c7, c8, c9] =>
    isPyDigit a1 && isPyDigit a2 && b1 = ':' && isPyDigit a3 && isPyDigit a4 &&
    b2 = ':' && isPyDigit a5 && isPyDigit a6 && b3 = ',' && isPyDigit a7 &&
    isPyDigit a8 && isPyDigit a9 && s1 = ' ' && d1 = '-' && d2 = '-' &&
    g1 = '>' && s2 = ' ' && isPyDigit c1 && isPyDigit c2 && e1 = ':' &&
    isPyDigit c3 && isPyDigit c4 && e2 = ':' && isPyDigit c5 && isPyDigit c6 &&
    e3 = ',' && isPyDigit c7 && isPyDigit c8 && isPyDigit c9
  | _ => false

/-- Does a line end in a 29-character timestamp shape (so that the
timestamp regex matches its suffix plus the following newline)? -/
def tsSuffix29 (p : List Char) : Bool :=
  decide (29 ≤ p.length) && tsShape29 (p.drop (p.length - 29))

/-- Pass 2 on the line decomposition: a matching suffix is deleted
together with the separating newline (merging the line's remainder with
the following line); the final part has no following newline. -/
def stripTsParts : List (List Char) → List Char
  | [] => []
  | [last] => last
  | p :: ps =>
    if tsSuffix29 p then p.take (p.length - 29) ++ stripTsParts ps
    else p ++ '\n' :: stripTsParts ps

/-- The replacement emitted for a completed run of `n` newlines: runs of
three or more become exactly two. -/
def emitNlRun (n : Nat) : List Char :=
  if n ≥ 3 then ['\n', '\n'] else List.replicate n '\n'

/-- State machine for pass 3: `n` counts the newline run read so far. -/
def collapseNlGo (n : Nat) : List Char → List Char
  | [] => emitNlRun n
  | c :: cs =>
    if c = '\n' then collapseNlGo (n + 1) cs
    else emitNlRun n ++ c :: collapseNlGo 0 cs

/-- Pass 3: `re.sub(r'\n{3,}', '\n\n', s)`. -/
def collapseNl (l : List Char) : List Char := collapseNlGo 0 l

/-- `srt_to_plain_text` from `src/youtube_utils.py`. -/
def srt_to_plain_text (l : List Char) : List Char :=
  pyStrip (collapseNl (stripTsParts (splitOnNl (stripSeqNums l))))

/-! ## YouTubeClient quota accounting (src/youtube_client.py)

Remote responses are passed in as explicit `Except` inputs; an `error`
input models `request.execute()` raising `HttpError`, in which case the
Python code never reaches the `self.quota_used += ...` line. -/

/-- An `HttpError` raised by the Google API client, by status code. -/
structure HttpErr where
  status : Nat
deriving DecidableEq, Repr

/-- The mutable state of `YouTubeClient`: the cumulative quota counter
(initialised to `0` in `__init__`). -/
structure YouTubeClient where
  quota_used : Nat
deriving DecidableEq, Repr

/-- A fresh client: `self.quota_used = 0`. -/
def YouTubeClient.init : YouTubeClient := ⟨0⟩

/-- Raw `videos.list` response: the parsed metadata payload of
`response['items'][0]`, or `none` when `items` is empty. -/
structure VideosListResp where
  items0 : Option (List (String × String))
deriving DecidableEq, Repr

/-- `YouTubeClient.get_video_metadata` quota behaviour: on a successful
`execute()` the counter is incremented by 1 (also when `items` is empty);
on `HttpError` the method returns `None` without touching the counter. -/
def YouTubeClient.get_video_metadata (c : YouTubeClient)
    (resp : Except HttpErr VideosListResp) :
    Option (List (String × String)) × YouTubeClient :=
  match resp with
  | .error _ => (none, c)
  | .ok r => (r.items0, { c with quota_used := c.quota_used + 1 })

/-- `YouTubeClient.list_captions`: on success the counter is incremented
by 50 and the track list returned; on `HttpError` an empty list is
returned and the counter is untouched. -/
def YouTubeClient.list_captions (c : YouTubeClient)
    (resp : Except HttpErr (List CaptionTrack)) :
    List CaptionTrack × YouTubeClient :=
  match resp with
  | .error _ => ([], c)
  | .ok tracks => (tracks, { c with quota_used := c.quota_used + 50 })

/-- `YouTubeClient.download_caption`: on success the counter is
incremented by 200 and the SRT payload converted to plain text; on
`HttpError` it returns `None` with the counter untouched. -/
def YouTubeClient.download_caption (c : YouTubeClient)
    (resp : Except HttpErr (List Char)) :
    Option (List Char) × YouTubeClient :=
  match resp with
  | .error _ => (none, c)
  | .ok srt => (some (srt_to_plain_text srt), { c with quota_used := c.quota_used + 200 })

/-! ## Unauthenticated caption acquirer (src/youtube_utils.py, get_video_captions)

The `youtube_transcript_api` calls are modelled as explicit inputs: the
`list_transcripts` call either raises a typed error or yields the
transcript list, and each transcript's `fetch()` either raises or yields
the list of segment texts. -/

/-- The typed errors of `youtube_transcript_api` caught in
`get_video_captions`; `other` is any other exception caught by the
final generic handler. -/
inductive TransApiError
  | transcriptsDisabled
  | noTranscriptFound
  | videoUnavailable
  | other (msg : List Char)
deriving DecidableEq, Repr

/-- The error message stored for each handler branch. -/
def TransApiError.message : TransApiError → List Char
  | .transcriptsDisabled => "Transcripts are disabled for this video".data
  | .noTranscriptFound => "No transcript found in any language".data
  | .videoUnavailable => "Video is unavailable".data
  | .other m => "Unexpected error: ".data ++ m

/-- One transcript offered by `list_transcripts`, together with the
outcome of its `fetch()` call (segment texts, or an exception message). -/
structure TranscriptInfo where
  language_code : List Char
  is_generated : Bool
  fetched : Except (List Char) (List (List Char))
deriving Repr

/-- The uniform result dict of `get_video_captions`. -/
structure CaptionResult where
  success : Bool
  transcript : Option (List Char)
  language : Option (List Char)
  is_auto_generated : Option Bool
  word_count : Nat
  error : Option (List Char)
deriving DecidableEq, Repr

/-- The initial result dict before any field is assigned. -/
def CaptionResult.initial : CaptionResult :=
  { success := false, transcript := none, language := none,
    is_auto_generated := none, word_count := 0, error := none }

/-- `' '.join(parts)`. -/
def joinSpace : List (List Char) → List Char
  | [] => []
  | [p] => p
  | p :: ps => p ++ ' ' :: joinSpace ps

/-- `find_manually_created_transcript(['en'])` of the library: the first
manually created transcript with language code `en`. -/
def findManualEn (ts : List TranscriptInfo) : Option TranscriptInfo :=
  ts.find? (fun t => !t.is_generated && decide (t.language_code = "en".data))

/-- `find_generated_transcript(['en'])`: the first auto-generated
transcript with language code `en`. -/
def findGeneratedEn (ts : List TranscriptInfo) : Option TranscriptInfo :=
  ts.find? (fun t => t.is_generated && decide (t.language_code = "en".data))

/-- `get_video_captions` from `src/youtube_utils.py`.  Selection: manual
English, else auto-generated English, else the first listed transcript
(recording its `is_generated` flag), else the "No transcripts available"
failure.  The chosen transcript's texts are joined with single spaces,
whitespace runs collapsed (`re.sub(r'\s+', ' ', ...)`) and stripped, and
`word_count = len(full_transcript.split())`. -/
def get_video_captions (input : Except TransApiError (List TranscriptInfo)) :
    CaptionResult :=
  match input with
  | .error e => { CaptionResult.initial with error := some e.message }
  | .ok ts =>
    let chosen : Option (TranscriptInfo × Bool) :=
      match findManualEn ts with
      | some t => some (t, false)
      | none =>
        match findGeneratedEn ts with
        | some t => some (t, true)
        | none =>
          match ts with
          | t :: _ => some (t, t.is_generated)
          | [] => none
    match chosen with
    | none => { CaptionResult.initial with error := some ("No transcripts available".data) }
    | some (t, auto) =>
      match t.fetched with
      | .error m =>
        { CaptionResult.initial with
          is_auto_generated := some auto,
          error := some ("Unexpected error: ".data ++ m) }
      | .ok entries =>
        let full := pyStrip (collapseWs (joinSpace entries))
        { success := true, transcript := some full,
          language := some t.language_code, is_auto_generated := some auto,
          word_count := (pySplit full).length, error := none }

/-! ## URL normaliser (src/youtube_utils.py, extract_video_id)

`urllib.parse.urlparse` and `parse_qs` are standard-library collaborators;
they are modelled here for the ASCII inputs in scope (percent-decoding is
modelled byte-wise; multi-byte UTF-8 percent sequences are out of scope). -/

/-- `urlsplit` first removes all tab/CR/LF characters. -/
def removeTabNl (l : List Char) : List Char :=
  l.filter (fun c => !(c = '\t' || c = '\r' || c = '\n'))

/-- Split at the first occurrence of `c`: `some (before, after)`, or
`none` when `c` does not occur. -/
def splitAtFirst (c : Char) : List Char → Option (List Char × List Char)
  | [] => none
  | d :: ds =>
    if d = c then some ([], ds)
    else
      match splitAtFirst c ds with
      | none => none
      | some (a, b) => some (d :: a, b)

/-- `scheme_chars` of `urllib.parse`. -/
def isSchemeChar (c : Char) : Bool :=
  c.isAlpha || isPyDigit c || c = '+' || c = '-' || c = '.'

/-- The result quintuple of `urlsplit` (params are not used by the code). -/
structure UrlParts where
  scheme : List Char
  netloc : List Char
  path : List Char
  query : List Char
  fragment : List Char
deriving DecidableEq, Repr

/-- Is the first character an ASCII letter (the Python check
`url[0].isascii() and url[0].isalpha()`)? -/
def headIsAsciiAlpha : List Char → Bool
  | [] => false
  | c :: _ => c.isAlpha && decide (c.toNat < 128)

/-- Split off the scheme: a leading run of `scheme_chars` starting with
an ASCII letter, up to the first `:`. -/
def splitScheme (url1 : List Char) : List Char × List Char :=
  match splitAtFirst ':' url1 with
  | some (pre, post) =>
    if !pre.isEmpty && headIsAsciiAlpha url1 && pre.all isSchemeChar
    then (pre.map Char.toLower, post)
    else ([], url1)
  | none => ([], url1)

/-- A character that does not end the netloc. -/
def notNetlocDelim (c : Char) : Bool := !(c = '/' || c = '?' || c = '#')

/-- Split off `//netloc`, delimited by `/`, `?` or `#`. -/
def splitNetloc (rest : List Char) : List Char × List Char :=
  if startsWithSeq "//".data rest then
    ((rest.drop 2).takeWhile notNetlocDelim,
     (rest.drop 2).dropWhile notNetlocDelim)
  else ([], rest)

/-- Split off the fragment at the first `#`. -/
def splitFragment (u : List Char) : List Char × List Char :=
  match splitAtFirst '#' u with
  | some (a, b) => (a, b)
  | none => (u, [])

/-- Split off the query at the first `?`. -/
def splitQuery (u : List Char) : List Char × List Char :=
  match splitAtFirst '?' u with
  | some (a, b) => (a, b)
  | none => (u, [])

/-- `urllib.parse.urlparse`: remove tab/CR/LF, split scheme, netloc,
fragment, query. -/
def pyUrlparse (url0 : List Char) : UrlParts :=
  let url1 := removeTabNl url0
  let sr := splitScheme url1
  let nr := splitNetloc sr.2
  let fr := splitFragment nr.2
  let qr := splitQuery fr.1
  ⟨sr.1, nr.1, qr.1, qr.2, fr.2⟩

/-- Generic split on a separator character (used for `&` in `parse_qsl`). -/
def splitOnCh (sep : Char) : List Char → List (List Char)
  | [] => [[]]
  | c :: cs =>
    if c = sep then [] :: splitOnCh sep cs
    else
      match splitOnCh sep cs with
      | [] => [[c]]
      | p :: ps => (c :: p) :: ps

/-- One hex digit, as in `urllib.parse.unquote`. -/
def hexVal (c : Char) : Option Nat :=
  if isPyDigit c then some (c.toNat - 48)
  else if 'a' ≤ c && c ≤ 'f' then some (c.toNat - 87)
  else if 'A' ≤ c && c ≤ 'F' then some (c.toNat - 55)
  else none

/-- `unquote_plus` (byte-wise model): `+` becomes space, `%xx` decodes a
byte, malformed escapes pass through. -/
def unquotePlus : List Char → List Char
  | [] => []
  | '+' :: cs => ' ' :: unquotePlus cs
  | '%' :: a :: b :: cs =>
    match hexVal a, hexVal b with
    | some x, some y => Char.ofNat (x * 16 + y) :: unquotePlus cs
    | _, _ => '%' :: unquotePlus (a :: b :: cs)
  | c :: cs => c :: unquotePlus cs

/-- `parse_qsl` with default flags: split pairs on `&`, skip empty pairs,
skip pairs without `=`, skip pairs with an empty value, unquote name and
value. -/
def parseQsl (q : List Char) : List (List Char × List Char) :=
  (splitOnCh '&' q).foldr
    (fun pair acc =>
      if pair.isEmpty then acc
      else
        match splitAtFirst '=' pair with
        | none => acc
        | some (n, v) =>
          if v.isEmpty then acc else (unquotePlus n, unquotePlus v) :: acc)
    []

/-- `parse_qs(query).get('v', [None])[0]`: the first value of parameter
`v`, if any. -/
def qsGetVFirst (q : List Char) : Option (List Char) :=
  match (parseQsl q).find? (fun p => decide (p.1 = "v".data)) with
  | some p => some p.2
  | none => none

/-- Take exactly `n` characters of the identifier class, returning the
captured group and the remainder. -/
def matchIdClass : Nat → List Char → Option (List Char × List Char)
  | 0, l => some ([], l)
  | _ + 1, [] => none
  | n + 1, c :: cs =>
    if idChar c then
      match matchIdClass n cs with
      | some (a, b) => some (c :: a, b)
      | none => none
    else none

/-- Try `re.search(r'/(embed|v)/([a-zA-Z0-9_-]{11})', path)` anchored at
the current position; the alternation tries `embed` before `v`. -/
def tryEmbedAt (l : List Char) : Option (List Char) :=
  match l with
  | '/' :: rest =>
    if startsWithSeq "embed/".data rest then (matchIdClass 11 (rest.drop 6)).map (·.1)
    else if startsWithSeq "v/".data rest then (matchIdClass 11 (rest.drop 2)).map (·.1)
    else none
  | _ => none

/-- Leftmost search for the embed pattern. -/
def searchEmbedId : List Char → Option (List Char)
  | [] => none
  | c :: cs =>
    match tryEmbedAt (c :: cs) with
    | some r => some r
    | none => searchEmbedId cs

/-- `re.match(r'^[a-zA-Z0-9_-]{11}$', s)`. -/
def fullMatchId11 (l : List Char) : Bool :=
  decide (l.length = 11) && l.all idChar

/-- `extract_video_id` from `src/youtube_utils.py`.  Note that the
`/watch` branch returns the raw first `v` query parameter without any
shape validation. -/
def extract_video_id (url0 : List Char) : Option (List Char) :=
  if url0.isEmpty then none
  else
    let url := pyStrip url0
    if fullMatchId11 url then some url
    else
      let p := pyUrlparse url
      let ytStep : Option (Option (List Char)) :=
        if containsSeq "youtube.com".data p.netloc then
          if decide (p.path = "/watch".data) then some (qsGetVFirst p.query)
          else
            match searchEmbedId p.path with
            | some r => some (some r)
            | none => none
        else none
      match ytStep with
      | some r => r
      | none =>
        if containsSeq "youtu.be".data p.netloc then
          let vid0 := p.path.dropWhile (fun c => c = '/')
          let vid :=
            match splitAtFirst '?' vid0 with
            | some (a, _) => a
            | none => vid0
          if fullMatchId11 vid then some vid else none
        else none

/-! ## Data model and persistence gateway (src/models.py, src/database.py)

Column values that the pipeline obtains from `dict.get` are modelled with
`PyVal` (Python value: `None`, `str`, `int` or `bool`); `DateTime`
columns are modelled as abstract `Nat` instants supplied as a `now`
parameter. -/

/-- A Python value as stored into a nullable ORM column. -/
inductive PyVal
  | vNone
  | vStr (s : List Char)
  | vInt (n : Int)
  | vBool (b : Bool)
deriving DecidableEq, Repr

/-- Python truthiness of a `PyVal`. -/
def pyTruthy : PyVal → Bool
  | .vNone => false
  | .vStr s => !s.isEmpty
  | .vInt n => decide (n ≠ 0)
  | .vBool b => b

/-- `dict` lookup with `None` default (`metadata.get(key)`). -/
def assocGet (md : List (String × PyVal)) (k : String) : PyVal :=
  match md.find? (fun p => decide (p.1 = k)) with
  | some p => p.2
  | none => PyVal.vNone

/-- A row of the `videos` table (`Video` in src/models.py). -/
structure Video where
  id : Nat
  video_id : List Char
  url : List Char
  title : PyVal
  channel_name : PyVal
  channel_id : PyVal
  description : PyVal
  published_at : PyVal
  duration : PyVal
  language : PyVal
  view_count : PyVal
  like_count : PyVal
  comment_count : PyVal
  status : List Char
  has_captions : Bool
  error_message : PyVal
  created_at : Nat
  updated_at : Nat
deriving DecidableEq, Repr

/-- A row of the `transcripts` table (`Transcript` in src/models.py);
`video_id` is the owning video's integer primary key. -/
structure Transcript where
  id : Nat
  video_id : Nat
  language : Option (List Char)
  is_auto_generated : Option Bool
  raw_text : Option (List Char)
  word_count : Nat
  created_at : Nat
deriving DecidableEq, Repr

/-- A row of the `motif_codings` table (`MotifCoding` in src/models.py);
the structured payload is kept opaque. -/
structure MotifRecord where
  video_id : Nat
  transcript_id : Nat
  coding_results : PyVal
  model_used : List Char
  tokens_used : Nat
  processing_time : Nat
  created_at : Nat
deriving DecidableEq, Repr

/-- The SQLite database state. -/
structure DB where
  videos : List Video
  transcripts : List Transcript
  codings : List MotifRecord
  nextVideoPk : Nat
  nextTranscriptPk : Nat
deriving DecidableEq, Repr

/-- The empty database. -/
def DB.empty : DB := ⟨[], [], [], 1, 1⟩

/-- `get_video_by_id`: `db.query(Video).filter_by(video_id=...).first()`. -/
def get_video_by_id (db : DB) (vid : List Char) : Option Video :=
  db.videos.find? (fun v => decide (v.video_id = vid))

/-- `create_video`: insert the new row (the uniqueness constraint on
`video_id` is enforced by the caller's existence check). -/
def create_video (db : DB) (v : Video) : DB :=
  { db with videos := db.videos ++ [v], nextVideoPk := db.nextVideoPk + 1 }

/-! ### `update_video` and its field mapping (C10) -/

/-- The updatable column names of `Video` (the primary key and the
automatic `updated_at` are managed by the ORM). -/
inductive VField
  | fVideoId | fUrl | fTitle | fChannelName | fChannelId | fDescription
  | fPublishedAt | fDuration | fLanguage | fViewCount | fLikeCount
  | fCommentCount | fStatus | fHasCaptions | fErrorMessage | fCreatedAt
deriving DecidableEq, Repr

/-- A uniform view of a column value, for frame-condition statements. -/
inductive FieldVal
  | fvStr (s : List Char)
  | fvPV (v : PyVal)
  | fvBool (b : Bool)
  | fvNat (n : Nat)
deriving DecidableEq, Repr

/-- Read one column. -/
def Video.getField (v : Video) : VField → FieldVal
  | .fVideoId => .fvStr v.video_id
  | .fUrl => .fvStr v.url
  | .fTitle => .fvPV v.title
  | .fChannelName => .fvPV v.channel_name
  | .fChannelId => .fvPV v.channel_id
  | .fDescription => .fvPV v.description
  | .fPublishedAt => .fvPV v.published_at
  | .fDuration => .fvPV v.duration
  | .fLanguage => .fvPV v.language
  | .fViewCount => .fvPV v.view_count
  | .fLikeCount => .fvPV v.like_count
  | .fCommentCount => .fvPV v.comment_count
  | .fStatus => .fvStr v.status
  | .fHasCaptions => .fvBool v.has_captions
  | .fErrorMessage => .fvPV v.error_message
  | .fCreatedAt => .fvNat v.created_at

/-- One `key: value` entry of the `updates` dict passed to
`update_video`. -/
inductive VUpdate
  | uVideoId (s : List Char)
  | uUrl (s : List Char)
  | uTitle (v : PyVal)
  | uChannelName (v : PyVal)
  | uChannelId (v : PyVal)
  | uDescription (v : PyVal)
  | uPublishedAt (v : PyVal)
  | uDuration (v : PyVal)
  | uLanguage (v : PyVal)
  | uViewCount (v : PyVal)
  | uLikeCount (v : PyVal)
  | uCommentCount (v : PyVal)
  | uStatus (s : List Char)
  | uHasCaptions (b : Bool)
  | uErrorMessage (v : PyVal)
  | uCreatedAt (n : Nat)
deriving DecidableEq, Repr

/-- The column an update entry names. -/
def VUpdate.key : VUpdate → VField
  | .uVideoId _ => .fVideoId
  | .uUrl _ => .fUrl
  | .uTitle _ => .fTitle
  | .uChannelName _ => .fChannelName
  | .uChannelId _ => .fChannelId
  | .uDescription _ => .fDescription
  | .uPublishedAt _ => .fPublishedAt
  | .uDuration _ => .fDuration
  | .uLanguage _ => .fLanguage
  | .uViewCount _ => .fViewCount
  | .uLikeCount _ => .fLikeCount
  | .uCommentCount _ => .fCommentCount
  | .uStatus _ => .fStatus
  | .uHasCaptions _ => .fHasCaptions
  | .uErrorMessage _ => .fErrorMessage
  | .uCreatedAt _ => .fCreatedAt

/-- The value an update entry carries. -/
def VUpdate.val : VUpdate → FieldVal
  | .uVideoId s => .fvStr s
  | .uUrl s => .fvStr s
  | .uTitle v => .fvPV v
  | .uChannelName v => .fvPV v
  | .uChannelId v => .fvPV v
  | .uDescription v => .fvPV v
  | .uPublishedAt v => .fvPV v
  | .uDuration v => .fvPV v
  | .uLanguage v => .fvPV v
  | .uViewCount v => .fvPV v
  | .uLikeCount v => .fvPV v
  | .uCommentCount v => .fvPV v
  | .uStatus s => .fvStr s
  | .uHasCaptions b => .fvBool b
  | .uErrorMessage v => .fvPV v
  | .uCreatedAt n => .fvNat n

/-- `setattr(video, key, value)`. -/
def applyUpdate (v : Video) : VUpdate → Video
  | .uVideoId s => { v with video_id := s }
  | .uUrl s => { v with url := s }
  | .uTitle w => { v with title := w }
  | .uChannelName w => { v with channel_name := w }
  | .uChannelId w => { v with channel_id := w }
  | .uDescription w => { v with description := w }
  | .uPublishedAt w => { v with published_at := w }
  | .uDuration w => { v with duration := w }
  | .uLanguage w => { v with language := w }
  | .uViewCount w => { v with view_count := w }
  | .uLikeCount w => { v with like_count := w }
  | .uCommentCount w => { v with comment_count := w }
  | .uStatus s => { v with status := s }
  | .uHasCaptions b => { v with has_captions := b }
  | .uErrorMessage w => { v with error_message := w }
  | .uCreatedAt n => { v with created_at := n }

/-- All `setattr` calls of the `for key, value in updates.items()` loop. -/
def applyUpdates (v : Video) (us : List VUpdate) : Video :=
  us.foldl applyUpdate v

/-- Replace the first row matching `video_id`. -/
def replaceFirstVideo : List Video → List Char → Video → List Video
  | [], _, _ => []
  | v :: vs, vid, w =>
    if v.video_id = vid then w :: vs
    else v :: replaceFirstVideo vs vid w

/-- `update_video` from `src/database.py`: find the row, apply every
entry of the mapping via `setattr`, commit.  The `onupdate` hook sets
`updated_at` to the current instant when the flush issues an UPDATE
(i.e. when some column actually changed); an unknown identifier yields
`None` and leaves the database untouched. -/
def update_video (vid : List Char) (us : List VUpdate) (now : Nat) (db : DB) :
    Option Video × DB :=
  match get_video_by_id db vid with
  | none => (none, db)
  | some v =>
    let v1 := applyUpdates v us
    let v2 := if v1 = v then v else { v1 with updated_at := now }
    (some v2, { db with videos := replaceFirstVideo db.videos vid v2 })

/-- The in-session status flip performed by `create_transcript`:
`video.has_captions = True; video.status = 'completed'` on the row with
primary key `pk`. -/
def setVideoCompleted : List Video → Nat → Nat → List Video
  | [], _, _ => []
  | v :: vs, pk, now =>
    if v.id = pk then
      { v with has_captions := true, status := "completed".data, updated_at := now } :: vs
    else v :: setVideoCompleted vs pk now

/-- `create_transcript` from `src/database.py`: insert the transcript row
for the video's primary key and mark the owning video completed. -/
def create_transcript (video_pk : Nat) (language : Option (List Char))
    (auto : Option Bool) (raw : Option (List Char)) (wc : Nat) (now : Nat)
    (db : DB) : Transcript × DB :=
  let t : Transcript :=
    { id := db.nextTranscriptPk, video_id := video_pk, language := language,
      is_auto_generated := auto, raw_text := raw, word_count := wc,
      created_at := now }
  let db' : DB :=
    { db with transcripts := db.transcripts ++ [t],
              videos := setVideoCompleted db.videos video_pk now,
              nextTranscriptPk := db.nextTranscriptPk + 1 }
  (t, db')

/-- `create_motif_coding` from `src/database.py`. -/
def create_motif_coding (video_pk transcript_pk : Nat) (payload : PyVal)
    (tokens : Nat) (now : Nat) (db : DB) : DB :=
  { db with codings := db.codings ++
      [{ video_id := video_pk, transcript_id := transcript_pk,
         coding_results := payload, model_used := "gpt-4o-mini".data,
         tokens_used := tokens, processing_time := 3, created_at := now }] }

/-! ## Metadata dict (src/youtube_client.py, get_video_metadata) -/

/-- The fields of `response['items'][0]` read by `get_video_metadata`. -/
structure ApiItem where
  title : List Char
  channelId : List Char
  channelTitle : List Char
  publishedAt : List Char
  durationIso : List Char
  description : List Char
  defaultAudioLanguage : Option (List Char)
  defaultLanguage : Option (List Char)
  viewCount : Option Int
  likeCount : Option Int
  commentCount : Option Int
deriving Repr

/-- The `metadata` dict built by `YouTubeClient.get_video_metadata` on a
successful lookup: note that the duration in seconds is stored under the
key `"duration"`. -/
def get_video_metadata_dict (vid : List Char) (it : ApiItem) :
    List (String × PyVal) :=
  [("video_id", .vStr vid),
   ("title", .vStr it.title),
   ("channel_id", .vStr it.channelId),
   ("channel_name", .vStr it.channelTitle),
   ("published_at", .vStr it.publishedAt),
   ("duration", .vInt (parse_iso_duration it.durationIso)),
   ("language", .vStr (it.defaultAudioLanguage.getD
                        (it.defaultLanguage.getD "unknown".data))),
   ("view_count", .vInt (it.viewCount.getD 0)),
   ("like_count", .vInt (it.likeCount.getD 0)),
   ("comment_count", .vInt (it.commentCount.getD 0)),
   ("description", .vStr (it.description.take 500))]

/-! ## Ingestion orchestrator (pages/add_videos.py, process_video_url) -/

/-- `s.replace('Z', '+00:00')`. -/
def replaceZ (s : List Char) : List Char :=
  s.flatMap (fun c => if c = 'Z' then "+00:00".data else [c])

/-- The value stored into `published_at` by the `video_data` dict:
`datetime.fromisoformat(metadata['published_at'].replace('Z', '+00:00'))
if metadata.get('published_at') else None`.  The parsed datetime is
represented by its normalised ISO string. -/
def pubAtVal (md : List (String × PyVal)) : PyVal :=
  if pyTruthy (assocGet md "published_at") then
    match assocGet md "published_at" with
    | .vStr s => .vStr (replaceZ s)
    | v => v
  else .vNone

/-- The `video_data` dict of `process_video_url`, as the row that
`create_video` inserts.  The duration is read from the key
`"duration_seconds"`, which `get_video_metadata` never produces. -/
def buildVideoData (vid url : List Char) (md : List (String × PyVal))
    (now pk : Nat) : Video :=
  { id := pk, video_id := vid, url := url,
    title := assocGet md "title",
    channel_name := assocGet md "channel_name",
    channel_id := assocGet md "channel_id",
    description := assocGet md "description",
    published_at := pubAtVal md,
    duration := assocGet md "duration_seconds",
    language := assocGet md "language",
    view_count := assocGet md "view_count",
    like_count := assocGet md "like_count",
    comment_count := assocGet md "comment_count",
    status := "processing".data,
    has_captions := false,
    error_message := PyVal.vNone,
    created_at := now, updated_at := now }

/-- The result dict of `process_video_url` (the float cost figure is not
modelled). -/
structure PipelineResult where
  success : Bool
  error : Option (List Char)
  video_created : Bool
  res_video_id : Option (List Char)
  res_title : Option PyVal
deriving DecidableEq, Repr

/-- A failure result `{"success": False, "error": e}`. -/
def PipelineResult.fail (e : List Char) : PipelineResult :=
  { success := false, error := some e, video_created := false,
    res_video_id := none, res_title := none }

/-- The remote calls issued while processing one video, in order. -/
inductive RemoteCall
  | metadataFetch
  | captionFetch
  | aiCall
deriving DecidableEq, Repr

/-- The external-service responses consumed while processing one video:
the metadata fetch result, the transcript-API listing consumed by
`get_video_captions`, and the generation call (exception message or
structured payload).  `now` is the wall-clock instant. -/
structure PipelineEnv where
  metadata : Option (List (String × PyVal))
  captions : Except TransApiError (List TranscriptInfo)
  ai : Except (List Char) PyVal
  now : Nat

/-- `f"{x}"` of an optional string (Python formats `None` as `"None"`). -/
def pyFormatOptStr (o : Option (List Char)) : List Char :=
  o.getD "None".data

/-- `PyVal` of an optional string. -/
def optStrPV : Option (List Char) → PyVal
  | some s => .vStr s
  | none => .vNone

/-- `process_video_url` from `pages/add_videos.py`: normalise, check
existence, fetch metadata, create the record, acquire captions (on
failure mark `no_captions` and return a partial-success result), store
the transcript, run the extraction, store the coding.  Any exception
thrown after the video row was committed (a non-string `title` makes the
`video.title[:50]` progress write raise, and a generation failure
propagates from `code_transcript`) is caught by the outer handler and
returned as `{"success": False, "error": str(e)}`.  Returns the result,
the final database state and the trace of remote calls. -/
def process_video_url (url : List Char) (env : PipelineEnv) (db : DB) :
    PipelineResult × DB × List RemoteCall :=
  match extract_video_id url with
  | none => (.fail "Invalid YouTube URL".data, db, [])
  | some vid =>
    match get_video_by_id db vid with
    | some _ => (.fail "Video already in database".data, db, [])
    | none =>
      match env.metadata with
      | none => (.fail "Failed to fetch metadata".data, db, [.metadataFetch])
      | some md =>
        let video := buildVideoData vid url md env.now db.nextVideoPk
        let db1 := create_video db video
        match video.title with
        | PyVal.vStr _ =>
          let cr := get_video_captions env.captions
          if !cr.success then
            let upd := update_video vid
              [.uStatus "no_captions".data, .uErrorMessage (optStrPV cr.error)]
              env.now db1
            ({ success := false,
               error := some ("No captions available: ".data ++ pyFormatOptStr cr.error),
               video_created := true, res_video_id := none, res_title := none },
             upd.2, [.metadataFetch, .captionFetch])
          else
            let ct := create_transcript video.id cr.language cr.is_auto_generated
              cr.transcript cr.word_count env.now db1
            match env.ai with
            | .error e => (.fail e, ct.2, [.metadataFetch, .captionFetch, .aiCall])
            | .ok payload =>
              let tokens := get_token_usage_estimate_tokens
                (pyFormatOptStr cr.transcript)
              let db3 := create_motif_coding video.id ct.1.id payload tokens
                env.now ct.2
              ({ success := true, error := none, video_created := false,
                 res_video_id := some vid, res_title := some video.title },
               db3, [.metadataFetch, .captionFetch, .aiCall])
        | _ =>
          (.fail "TypeError: value is not subscriptable".data, db1,
           [.metadataFetch])

/-! ## Well-formed SRT documents (for the srt_to_plain_text specification)

A well-formed SRT input is a sequence of cue blocks, each consisting of a
sequence-number line, a timestamp line, and one or more spoken-text
lines, separated by blank lines. -/

/-- One SRT cue block. -/
structure SrtBlock where
  seq : List Char
  ts : List Char
  lines : List (List Char)
deriving Repr

/-- Render one block: number line, timestamp line, spoken lines, blank
separator line. -/
def renderBlock (b : SrtBlock) : List Char :=
  b.seq ++ '\n' :: (b.ts ++ '\n' :: (joinNl b.lines ++ ['\n', '\n']))

/-- Render a whole SRT document. -/
def renderSrt (blocks : List SrtBlock) : List Char :=
  blocks.foldr (fun b acc => renderBlock b ++ acc) []

/-- Join text groups with one blank line between consecutive groups. -/
def joinBlank : List (List Char) → List Char
  | [] => []
  | [p] => p
  | p :: ps => p ++ '\n' :: '\n' :: joinBlank ps

/-- The line decomposition of a rendered document. -/
def partsOf (blocks : List SrtBlock) : List (List Char) :=
  blocks.foldr (fun b acc => b.seq :: b.ts :: (b.lines ++ [] :: acc)) [[]]

/-- The line decomposition after sequence-number lines are removed. -/
def partsNoSeq (blocks : List SrtBlock) : List (List Char) :=
  blocks.foldr (fun b acc => b.ts :: (b.lines ++ [] :: acc)) [[]]

/-- Flatten lines, terminating each with a newline, onto a tail. -/
def lineFlat (ls : List (List Char)) (tail : List Char) : List Char :=
  ls.foldr (fun l acc => l ++ '\n' :: acc) tail

/-- The text after both removal passes: each block's lines followed by
the blank separator. -/
def flatT (blocks : List SrtBlock) : List Char :=
  blocks.foldr (fun b acc => lineFlat b.lines ('\n' :: acc)) []

/-- Does the list start with a non-whitespace character? -/
def headNotSpace : List Char → Bool
  | [] => false
  | c :: _ => !isPySpace c

/-- Does the list end with a non-whitespace character? -/
def lastNotSpace (l : List Char) : Bool :=
  match l.getLast? with
  | some c => !isPySpace c
  | none => false

/-- A well-formed spoken-text line: nonempty, newline-free, not a pure
digit run (it would be removed as a sequence number), not ending in a
timestamp shape (its tail would be removed), and not starting or ending
in whitespace (the final `strip()` would trim the document ends). -/
def wfLineB (l : List Char) : Bool :=
  !l.isEmpty && l.all (fun c => !(c = '\n')) && !(l.all isPyDigit) &&
  !tsSuffix29 l && headNotSpace l && lastNotSpace l

/-- A well-formed block: digit-run sequence line, timestamp-shaped
timestamp line, at least one well-formed spoken line. -/
def wfBlockB (b : SrtBlock) : Bool :=
  isSeqLine b.seq && tsShape29 b.ts && !b.lines.isEmpty &&
  b.lines.all wfLineB

/-- The list is empty or starts with a non-newline character. -/
def headNotNlP : List Char → Prop
  | [] => True
  | c :: _ => c ≠ '\n'

/-! ## Concrete fixtures used in example runs -/

/-- A stored video row for the identifier `dQw4w9WgXcQ`. -/
def sampleStoredVideo : Video :=
  { id := 1, video_id := "dQw4w9WgXcQ".data, url := "u".data,
    title := .vStr "T".data, channel_name := .vNone, channel_id := .vNone,
    description := .vNone, published_at := .vNone, duration := .vNone,
    language := .vNone, view_count := .vNone, like_count := .vNone,
    comment_count := .vNone, status := "processing".data,
    has_captions := false, error_message := .vNone,
    created_at := 0, updated_at := 0 }

/-- A database already holding `sampleStoredVideo`. -/
def sampleDB : DB :=
  { videos := [sampleStoredVideo], transcripts := [], codings := [],
    nextVideoPk := 2, nextTranscriptPk := 1 }

/-- A metadata dict as produced by the metadata fetch for a sample video. -/
def sampleMd : List (String × PyVal) :=
  get_video_metadata_dict "dQw4w9WgXcQ".data
    { title := "T".data, channelId := "UC1".data, channelTitle := "Chan".data,
      publishedAt := "2024-01-01T00:00:00Z".data,
      durationIso := "PT1H2M10S".data, description := "d".data,
      defaultAudioLanguage := some "en".data, defaultLanguage := none,
      viewCount := some 10, likeCount := some 2, commentCount := some 1 }

/-- An environment in which caption acquisition fails because transcripts
are disabled. -/
def sampleEnvNoCaptions : PipelineEnv :=
  { metadata := some sampleMd, captions := .error .transcriptsDisabled,
    ai := .error [], now := 9 }

/-- An environment in which caption acquisition succeeds with a manual
English transcript of three segments. -/
def sampleEnvSuccess : PipelineEnv :=
  { metadata := some sampleMd,
    captions := .ok [
      { language_code := "en".data, is_generated := false,
        fetched := .ok ["Hello".data, "big   world".data, " again ".data] }],
    ai := .ok (.vStr "payload".data), now := 9 }

/-- The metadata dict fetched for `dQw4w9WgXcQ` with ISO duration
`PT1H2M10S` (3730 seconds), as built by `get_video_metadata`. -/
def c8md : List (String × PyVal) :=
  get_video_metadata_dict "dQw4w9WgXcQ".data
    { title := "T".data, channelId := "UC1".data, channelTitle := "Chan".data,
      publishedAt := "2024-01-01T00:00:00Z".data,
      durationIso := "PT1H2M10S".data, description := "d".data,
      defaultAudioLanguage := some "en".data, defaultLanguage := none,
      viewCount := some 10, likeCount := some 2, commentCount := some 1 }

/-- A concrete well-formed SRT block (sequence 1). -/
def wBlock1 : SrtBlock :=
  { seq := "1".data, ts := "00:00:00,000 --> 00:00:02,000".data,
    lines := ["Hello world".data] }

/-- A concrete well-formed SRT block (sequence 2, two spoken lines). -/
def wBlock2 : SrtBlock :=
  { seq := "2".data, ts := "00:00:02,000 --> 00:00:04,000".data,
    lines := ["Second line".data, "more text".data] }

/-! # Theorems -/

/-! ## C6: extraction truncation -/

/-- **C6** — For every transcript text longer than the configured maximum
character budget (50000), the text submitted to the generation call is the
first 50000 characters followed by the truncation marker: it ends with the
marker and its length is exactly the maximum plus the marker length; text
at or below the budget is submitted unchanged. -/
theorem code_transcript_truncation (t : List Char) :
    (t.length > maxTranscriptChars →
      code_transcript_submitted t = t.take maxTranscriptChars ++ truncationMarker ∧
      (code_transcript_submitted t).length =
        maxTranscriptChars + truncationMarker.length ∧
      truncationMarker <:+ code_transcript_submitted t) ∧
    (t.length ≤ maxTranscriptChars → code_transcript_submitted t = t) := by
  constructor
  · intro h
    have he : code_transcript_submitted t = t.take maxTranscriptChars ++ truncationMarker := by
      simp [code_transcript_submitted, h]
    refine ⟨he, ?_, ?_⟩
    · rw [he]
      simp only [List.length_append, List.length_take]
      have : min maxTranscriptChars t.length = maxTranscriptChars := by omega
      omega
    · rw [he]
      exact List.suffix_append _ _
  · intro h
    have : ¬(t.length > maxTranscriptChars) := by omega
    simp [code_transcript_submitted, this]

/-- Witness for C6 at a concrete 50001-character transcript. -/
theorem code_transcript_truncation_witness :
    code_transcript_submitted (List.replicate 50001 'x') =
      List.replicate 50000 'x' ++ truncationMarker ∧
    (code_transcript_submitted (List.replicate 50001 'x')).length = 50013 := by
  have hlen : (List.replicate 50001 'x').length > maxTranscriptChars := by
    rw [List.length_replicate, maxTranscriptChars]
    omega
  have h := (code_transcript_truncation (List.replicate 50001 'x')).1 hlen
  constructor
  · rw [h.1, List.take_replicate]
    norm_num [maxTranscriptChars]
  · rw [h.2.1]
    rfl

/-! ## C3: caption track priority -/

/-- **C3** — The authenticated strategy's caption-track selection follows
the priority manual-English > manual-any > auto-English > auto-any: if any
manual English track exists, one of them is selected; otherwise any manual
track; otherwise any auto English track; otherwise any auto track;
otherwise no track.  The selected tier depends only on which tiers are
inhabited, not on the listing order, and the result is always a listed
track. -/
theorem get_best_caption_track_priority (ts : List CaptionTrack) :
    ((∃ c ∈ ts, c.is_auto_generated = false ∧ trackIsEnglish c = true) →
      ∃ c, get_best_caption_track ts = some c ∧ c ∈ ts ∧
        c.is_auto_generated = false ∧ trackIsEnglish c = true) ∧
    ((∃ c ∈ ts, c.is_auto_generated = false) →
      (∀ c ∈ ts, c.is_auto_generated = false → trackIsEnglish c = false) →
      ∃ c, get_best_caption_track ts = some c ∧ c ∈ ts ∧
        c.is_auto_generated = false) ∧
    ((∀ c ∈ ts, c.is_auto_generated = true) →
      (∃ c ∈ ts, trackIsEnglish c = true) →
      ∃ c, get_best_caption_track ts = some c ∧ c ∈ ts ∧
        c.is_auto_generated = true ∧ trackIsEnglish c = true) ∧
    ((∀ c ∈ ts, c.is_auto_generated = true) →
      (∀ c ∈ ts, trackIsEnglish c = false) → ts ≠ [] →
      ∃ c, get_best_caption_track ts = some c ∧ c ∈ ts ∧
        c.is_auto_generated = true) ∧
    (ts = [] → get_best_caption_track ts = none) ∧
    (∀ c, get_best_caption_track ts = some c → c ∈ ts) := by
  refine ⟨?_, ?_, ?_, ?_, ?_, ?_⟩
  · rintro ⟨c, hc, hman, hen⟩
    have hne : ts.isEmpty = false := by
      cases ts with
      | nil => exact absurd hc (List.not_mem_nil c)
      | cons a l => rfl
    have hcm : c ∈ ts.filter (fun c => !c.is_auto_generated) :=
      List.mem_filter.2 ⟨hc, by simp [hman]⟩
    have hsome : ((ts.filter (fun c => !c.is_auto_generated)).find? trackIsEnglish).isSome := by
      rw [List.find?_isSome]
      exact ⟨c, hcm, hen⟩
    obtain ⟨d, hd⟩ := Option.isSome_iff_exists.1 hsome
    have hdmem := List.mem_of_find?_eq_some hd
    have hden := List.find?_some hd
    refine ⟨d, ?_, (List.mem_filter.1 hdmem).1, by simpa using (List.mem_filter.1 hdmem).2, hden⟩
    simp only [get_best_caption_track, hne, Bool.false_eq_true, if_false, hd]
  · rintro ⟨c, hc, hman⟩ hnoen
    have hne : ts.isEmpty = false := by
      cases ts with
      | nil => exact absurd hc (List.not_mem_nil c)
      | cons a l => rfl
    have hnone : (ts.filter (fun c => !c.is_auto_generated)).find? trackIsEnglish = none := by
      rw [List.find?_eq_none]
      intro a ha
      have := List.mem_filter.1 ha
      simp only [Bool.not_eq_eq_eq_not, Bool.not_true] at this
      simp [hnoen a this.1 this.2]
    have hcm : c ∈ ts.filter (fun c => !c.is_auto_generated) :=
      List.mem_filter.2 ⟨hc, by simp [hman]⟩
    obtain ⟨m, ms, hms⟩ : ∃ m ms, ts.filter (fun c => !c.is_auto_generated) = m :: ms := by
      cases h : ts.filter (fun c => !c.is_auto_generated) with
      | nil => rw [h] at hcm; exact absurd hcm (List.not_mem_nil c)
      | cons m ms => exact ⟨m, ms, rfl⟩
    have hmmem : m ∈ ts.filter (fun c => !c.is_auto_generated) := by
      rw [hms]; exact List.mem_cons_self m ms
    have hnone' : (m :: ms).find? trackIsEnglish = none := by rw [← hms]; exact hnone
    refine ⟨m, ?_, (List.mem_filter.1 hmmem).1, by simpa using (List.mem_filter.1 hmmem).2⟩
    simp only [get_best_caption_track, hne, Bool.false_eq_true, if_false, hms, hnone']
  · rintro hall ⟨c, hc, hen⟩
    have hne : ts.isEmpty = false := by
      cases ts with
      | nil => exact absurd hc (List.not_mem_nil c)
      | cons a l => rfl
    have hmnil : ts.filter (fun c => !c.is_auto_generated) = [] := by
      rw [List.filter_eq_nil_iff]
      intro a ha
      simp [hall a ha]
    have hcm : c ∈ ts.filter (fun c => c.is_auto_generated) :=
      List.mem_filter.2 ⟨hc, by simp [hall c hc]⟩
    have hsome : ((ts.filter (fun c => c.is_auto_generated)).find? trackIsEnglish).isSome := by
      rw [List.find?_isSome]
      exact ⟨c, hcm, hen⟩
    obtain ⟨d, hd⟩ := Option.isSome_iff_exists.1 hsome
    have hdmem := List.mem_of_find?_eq_some hd
    have hden := List.find?_some hd
    refine ⟨d, ?_, (List.mem_filter.1 hdmem).1, (List.mem_filter.1 hdmem).2, hden⟩
    simp only [get_best_caption_track, hne, Bool.false_eq_true, if_false, hmnil,
      List.find?_nil, hd]
  · intro hall hnoen hne'
    have hne : ts.isEmpty = false := by
      cases ts with
      | nil => exact absurd rfl hne'
      | cons a l => rfl
    have hmnil : ts.filter (fun c => !c.is_auto_generated) = [] := by
      rw [List.filter_eq_nil_iff]
      intro a ha
      simp [hall a ha]
    obtain ⟨t, ts', hts⟩ : ∃ t ts', ts = t :: ts' := by
      cases ts with
      | nil => exact absurd rfl hne'
      | cons a l => exact ⟨a, l, rfl⟩
    have htm : t ∈ ts.filter (fun c => c.is_auto_generated) := by
      refine List.mem_filter.2 ⟨?_, ?_⟩
      · rw [hts]; exact List.mem_cons_self t ts'
      · exact hall t (by rw [hts]; exact List.mem_cons_self t ts')
    obtain ⟨m, ms, hms⟩ : ∃ m ms, ts.filter (fun c => c.is_auto_generated) = m :: ms := by
      cases h : ts.filter (fun c => c.is_auto_generated) with
      | nil => rw [h] at htm; exact absurd htm (List.not_mem_nil t)
      | cons m ms => exact ⟨m, ms, rfl⟩
    have hmmem : m ∈ ts.filter (fun c => c.is_auto_generated) := by
      rw [hms]; exact List.mem_cons_self m ms
    have hnone : (ts.filter (fun c => c.is_auto_generated)).find? trackIsEnglish = none := by
      rw [List.find?_eq_none]
      intro a ha
      simp [hnoen a (List.mem_filter.1 ha).1]
    have hnone' : (m :: ms).find? trackIsEnglish = none := by rw [← hms]; exact hnone
    refine ⟨m, ?_, (List.mem_filter.1 hmmem).1, (List.mem_filter.1 hmmem).2⟩
    simp only [get_best_caption_track, hne, Bool.false_eq_true, if_false, hmnil,
      List.find?_nil, hms, hnone']
  · intro h
    subst h
    rfl
  · intro c h
    simp only [get_best_caption_track] at h
    by_cases hne : ts.isEmpty
    · rw [if_pos hne] at h
      exact absurd h (by simp)
    · rw [if_neg hne] at h
      cases h1 : (ts.filter (fun c => !c.is_auto_generated)).find? trackIsEnglish with
      | some d =>
        rw [h1] at h
        have hdm := (List.mem_filter.1 (List.mem_of_find?_eq_some h1)).1
        exact (Option.some.inj h) ▸ hdm
      | none =>
        rw [h1] at h
        cases h2 : ts.filter (fun c => !c.is_auto_generated) with
        | cons m ms =>
          rw [h2] at h
          have hmm : m ∈ ts.filter (fun c => !c.is_auto_generated) := by
            rw [h2]; exact List.mem_cons_self m ms
          exact (Option.some.inj h) ▸ (List.mem_filter.1 hmm).1
        | nil =>
          rw [h2] at h
          cases h3 : (ts.filter (fun c => c.is_auto_generated)).find? trackIsEnglish with
          | some d =>
            rw [h3] at h
            have hdm := (List.mem_filter.1 (List.mem_of_find?_eq_some h3)).1
            exact (Option.some.inj h) ▸ hdm
          | none =>
            rw [h3] at h
            cases h4 : ts.filter (fun c => c.is_auto_generated) with
            | cons m ms =>
              rw [h4] at h
              have hmm : m ∈ ts.filter (fun c => c.is_auto_generated) := by
                rw [h4]; exact List.mem_cons_self m ms
              exact (Option.some.inj h) ▸ (List.mem_filter.1 hmm).1
            | nil =>
              rw [h4] at h
              exact absurd h (by simp)

/-- Witness for C3: the spec's fixture of a manual `es` track and an auto
`en` track sits in the manual-any tier, so a manual track is selected even
though the only English track is auto-generated. -/
theorem get_best_caption_track_priority_witness :
    ∃ c, get_best_caption_track
        [⟨"a".data, "es".data, [], false⟩, ⟨"b".data, "en".data, [], true⟩] = some c ∧
      c ∈ [⟨"a".data, "es".data, [], false⟩, ⟨"b".data, "en".data, [], true⟩] ∧
      c.is_auto_generated = false := by
  exact (get_best_caption_track_priority _).2.1
    ⟨⟨"a".data, "es".data, [], false⟩, by decide, by decide⟩
    (by decide)

/-! ## C9: quota counter -/

/-- Counterexample for C9 as stated: a metadata fetch whose `execute()`
raises `HttpError` (status 403) is a remote call, but the counter is not
incremented by the call's weighted cost of 1 — the `quota_used += 1` line
is only reached on success. -/
theorem quota_counter_counterexample :
    ¬ ((YouTubeClient.init.get_video_metadata (.error ⟨403⟩)).2.quota_used =
        YouTubeClient.init.quota_used + 1) := by
  decide

/-- **C9 (amended)** — The client's cumulative quota counter starts at
zero; every *successful* remote call increments it by that call's fixed
weighted cost (1 for a metadata fetch, 50 for a caption listing, 200 for
a caption download) while a call whose `execute()` raises leaves it
unchanged; it is monotonically increasing (no operation ever decreases
it); and it is readable from the client state after every remote call. -/
theorem quota_counter_amended :
    YouTubeClient.init.quota_used = 0 ∧
    (∀ (c : YouTubeClient) (r : VideosListResp),
      (c.get_video_metadata (.ok r)).2.quota_used = c.quota_used + 1) ∧
    (∀ (c : YouTubeClient) (e : HttpErr),
      (c.get_video_metadata (.error e)).2.quota_used = c.quota_used) ∧
    (∀ (c : YouTubeClient) (ts : List CaptionTrack),
      (c.list_captions (.ok ts)).2.quota_used = c.quota_used + 50) ∧
    (∀ (c : YouTubeClient) (e : HttpErr),
      (c.list_captions (.error e)).2.quota_used = c.quota_used) ∧
    (∀ (c : YouTubeClient) (s : List Char),
      (c.download_caption (.ok s)).2.quota_used = c.quota_used + 200) ∧
    (∀ (c : YouTubeClient) (e : HttpErr),
      (c.download_caption (.error e)).2.quota_used = c.quota_used) ∧
    (∀ (c : YouTubeClient) (x : Except HttpErr VideosListResp),
      c.quota_used ≤ (c.get_video_metadata x).2.quota_used) ∧
    (∀ (c : YouTubeClient) (x : Except HttpErr (List CaptionTrack)),
      c.quota_used ≤ (c.list_captions x).2.quota_used) ∧
    (∀ (c : YouTubeClient) (x : Except HttpErr (List Char)),
      c.quota_used ≤ (c.download_caption x).2.quota_used) := by
  refine ⟨rfl, fun c r => rfl, fun c e => rfl, fun c ts => rfl, fun c e => rfl,
    fun c s => rfl, fun c e => rfl, ?_, ?_, ?_⟩
  · intro c x
    cases x with
    | error e => exact Nat.le_refl _
    | ok r => exact Nat.le_succ _
  · intro c x
    cases x with
    | error e => exact Nat.le_refl _
    | ok r => exact Nat.le_add_right _ _
  · intro c x
    cases x with
    | error e => exact Nat.le_refl _
    | ok r => exact Nat.le_add_right _ _

/-! ## C8: persisted metadata -/

/-- **C8 is violated by the code** — The metadata fetch returns the parsed
duration in seconds under the dict key `"duration"`, but the orchestrator
builds the video row from `metadata.get('duration_seconds')`, a key the
metadata fetch never produces, so the persisted duration is `None` rather
than the fetched value.  Evaluated at a video whose ISO duration is
`PT1H2M10S` (= 3730 s): the fetched dict carries 3730, the persisted row
carries `None`, while title, channel identity and language are persisted
as fetched. -/
theorem video_duration_dropped :
    assocGet c8md "duration" = PyVal.vInt 3730 ∧
    (buildVideoData "dQw4w9WgXcQ".data "u".data c8md 0 1).duration = PyVal.vNone ∧
    (buildVideoData "dQw4w9WgXcQ".data "u".data c8md 0 1).title =
      PyVal.vStr "T".data ∧
    (buildVideoData "dQw4w9WgXcQ".data "u".data c8md 0 1).channel_name =
      PyVal.vStr "Chan".data ∧
    (buildVideoData "dQw4w9WgXcQ".data "u".data c8md 0 1).channel_id =
      PyVal.vStr "UC1".data ∧
    (buildVideoData "dQw4w9WgXcQ".data "u".data c8md 0 1).language =
      PyVal.vStr "en".data ∧
    (∀ t ∈ (process_video_url "dQw4w9WgXcQ".data
        { metadata := some c8md, captions := .error .transcriptsDisabled,
          ai := .error [], now := 5 } DB.empty).2.1.videos,
      t.duration = PyVal.vNone) := by
  refine ⟨by decide, by decide, by decide, by decide, by decide, by decide, ?_⟩
  decide

/-! ## Pipeline evaluation lemmas (shared infrastructure) -/

theorem find?_append_none {α : Type} {p : α → Bool} {l₁ : List α} (l₂ : List α)
    (h : l₁.find? p = none) : (l₁ ++ l₂).find? p = l₂.find? p := by
  rw [List.find?_append, h, Option.none_or]

theorem replaceFirstVideo_append_none (l₁ : List Video) (vid : List Char)
    (w v : Video) (h : l₁.find? (fun x => decide (x.video_id = vid)) = none)
    (hv : v.video_id = vid) :
    replaceFirstVideo (l₁ ++ [v]) vid w = l₁ ++ [w] := by
  induction l₁ with
  | nil => simp [replaceFirstVideo, hv]
  | cons a l ih =>
    have ha : (a.video_id = vid) = False := by
      have := List.find?_eq_none.1 h a (List.mem_cons_self a l)
      simpa using this
    have h' : l.find? (fun x => decide (x.video_id = vid)) = none := by
      rw [List.find?_eq_none] at h ⊢
      intro x hx
      exact h x (List.mem_cons_of_mem a hx)
    simp only [List.cons_append, replaceFirstVideo, ha, if_false]
    exact congrArg (List.cons a) (ih h')

theorem countP_replaceFirstVideo (vs : List Video) (vid u : List Char)
    (w : Video) (hw : w.video_id = vid) :
    (replaceFirstVideo vs vid w).countP (fun x => decide (x.video_id = u)) =
      vs.countP (fun x => decide (x.video_id = u)) := by
  induction vs with
  | nil => rfl
  | cons v vs ih =>
    by_cases h : v.video_id = vid
    · simp only [replaceFirstVideo, if_pos h, List.countP_cons]
      rw [hw, h]
    · simp only [replaceFirstVideo, h, if_false, List.countP_cons, ih]

theorem countP_setVideoCompleted (vs : List Video) (pk now : Nat) (u : List Char) :
    (setVideoCompleted vs pk now).countP (fun x => decide (x.video_id = u)) =
      vs.countP (fun x => decide (x.video_id = u)) := by
  induction vs with
  | nil => rfl
  | cons v vs ih =>
    by_cases h : v.id = pk
    · simp only [setVideoCompleted, h, if_true, List.countP_cons]
    · simp only [setVideoCompleted, h, if_false, List.countP_cons, ih]

theorem process_eval_invalid (url : List Char) (env : PipelineEnv) (db : DB)
    (hex : extract_video_id url = none) :
    process_video_url url env db =
      (.fail "Invalid YouTube URL".data, db, []) := by
  simp only [process_video_url, hex]

theorem process_eval_exists (url vid : List Char) (env : PipelineEnv) (db : DB)
    (v : Video) (hex : extract_video_id url = some vid)
    (hfound : get_video_by_id db vid = some v) :
    process_video_url url env db =
      (.fail "Video already in database".data, db, []) := by
  simp only [process_video_url, hex, hfound]

theorem process_eval_no_metadata (url vid : List Char) (env : PipelineEnv)
    (db : DB) (hex : extract_video_id url = some vid)
    (hnone : get_video_by_id db vid = none) (hmd : env.metadata = none) :
    process_video_url url env db =
      (.fail "Failed to fetch metadata".data, db, [.metadataFetch]) := by
  simp only [process_video_url, hex, hnone, hmd]

theorem process_eval_caption_fail (url vid : List Char) (env : PipelineEnv)
    (db : DB) (md : List (String × PyVal)) (t : List Char)
    (hex : extract_video_id url = some vid)
    (hnone : get_video_by_id db vid = none)
    (hmd : env.metadata = some md)
    (htitle : assocGet md "title" = PyVal.vStr t)
    (hfail : (get_video_captions env.captions).success = false) :
    process_video_url url env db =
      ({ success := false,
         error := some ("No captions available: ".data ++
           pyFormatOptStr (get_video_captions env.captions).error),
         video_created := true, res_video_id := none, res_title := none },
       { db with
         videos := db.videos ++
           [{ buildVideoData vid url md env.now db.nextVideoPk with
               status := "no_captions".data,
               error_message := optStrPV (get_video_captions env.captions).error,
               updated_at := env.now }],
         nextVideoPk := db.nextVideoPk + 1 },
       [.metadataFetch, .captionFetch]) := by
  have htitle' : (buildVideoData vid url md env.now db.nextVideoPk).title =
      PyVal.vStr t := htitle
  have hfind : get_video_by_id (create_video db
      (buildVideoData vid url md env.now db.nextVideoPk)) vid =
      some (buildVideoData vid url md env.now db.nextVideoPk) := by
    unfold get_video_by_id create_video
    rw [find?_append_none _ hnone]
    simp [buildVideoData]
  have hne : applyUpdates (buildVideoData vid url md env.now db.nextVideoPk)
      [.uStatus "no_captions".data,
       .uErrorMessage (optStrPV (get_video_captions env.captions).error)] ≠
      buildVideoData vid url md env.now db.nextVideoPk := by
    intro hcontra
    have := congrArg Video.status hcontra
    simp [applyUpdates, applyUpdate, buildVideoData] at this
  simp only [process_video_url, hex, hnone, hmd, htitle', hfail,
    Bool.not_false, if_true, update_video, hfind, hne, if_false]
  have happ : applyUpdates (buildVideoData vid url md env.now db.nextVideoPk)
      [VUpdate.uStatus "no_captions".data,
       VUpdate.uErrorMessage (optStrPV (get_video_captions env.captions).error)] =
      { buildVideoData vid url md env.now db.nextVideoPk with
        status := "no_captions".data,
        error_message := optStrPV (get_video_captions env.captions).error } := rfl
  simp only [happ, htitle', create_video]
  rw [replaceFirstVideo_append_none db.videos vid _ _ hnone rfl]

theorem process_eval_caption_success (url vid : List Char) (env : PipelineEnv)
    (db : DB) (md : List (String × PyVal)) (t : List Char)
    (hex : extract_video_id url = some vid)
    (hnone : get_video_by_id db vid = none)
    (hmd : env.metadata = some md)
    (htitle : assocGet md "title" = PyVal.vStr t)
    (hsucc : (get_video_captions env.captions).success = true) :
    process_video_url url env db =
      (let cr := get_video_captions env.captions
       let video := buildVideoData vid url md env.now db.nextVideoPk
       let ct := create_transcript video.id cr.language cr.is_auto_generated
         cr.transcript cr.word_count env.now (create_video db video)
       match env.ai with
       | .error e => (.fail e, ct.2, [.metadataFetch, .captionFetch, .aiCall])
       | .ok payload =>
         ({ success := true, error := none, video_created := false,
            res_video_id := some vid, res_title := some video.title },
          create_motif_coding video.id ct.1.id payload
            (get_token_usage_estimate_tokens (pyFormatOptStr cr.transcript))
            env.now ct.2,
          [.metadataFetch, .captionFetch, .aiCall])) := by
  have htitle' : (buildVideoData vid url md env.now db.nextVideoPk).title =
      PyVal.vStr t := htitle
  simp only [process_video_url, hex, hnone, hmd, htitle', hsucc,
    Bool.not_true, Bool.false_eq_true, if_false]

/-! ## C2: idempotency -/

/-- **C2** — Submitting an already-stored canonical identifier aborts with
the "already exists" outcome, leaves the stored state unchanged and issues
no remote call (the existence check precedes the metadata fetch); and no
run of the pipeline ever brings the number of VideoRecords holding one
identifier above one, so a second submission never creates a duplicate. -/
theorem process_video_url_idempotent :
    (∀ (url : List Char) (env : PipelineEnv) (db : DB) (vid : List Char)
       (v : Video),
      extract_video_id url = some vid → get_video_by_id db vid = some v →
      process_video_url url env db =
        (.fail "Video already in database".data, db, [])) ∧
    (∀ (url : List Char) (env : PipelineEnv) (db : DB) (vid : List Char),
      db.videos.countP (fun w => decide (w.video_id = vid)) ≤ 1 →
      (process_video_url url env db).2.1.videos.countP
        (fun w => decide (w.video_id = vid)) ≤ 1) := by
  constructor
  · intro url env db vid v hex hfound
    exact process_eval_exists url vid env db v hex hfound
  · intro url env db vid h
    cases hex : extract_video_id url with
    | none => rw [process_eval_invalid url env db hex]; exact h
    | some vid' =>
      cases hfound : get_video_by_id db vid' with
      | some v => rw [process_eval_exists url vid' env db v hex hfound]; exact h
      | none =>
        cases hmd : env.metadata with
        | none => rw [process_eval_no_metadata url vid' env db hex hfound hmd]; exact h
        | some md =>
          have hzero : db.videos.countP (fun w => decide (w.video_id = vid')) = 0 := by
            rw [List.countP_eq_zero]
            intro a ha
            have := List.find?_eq_none.1 hfound a ha
            simpa using this
          have hbound : ∀ w : Video, w.video_id = vid' →
              (db.videos ++ [w]).countP (fun x => decide (x.video_id = vid)) ≤ 1 := by
            intro w hw
            rw [List.countP_append]
            by_cases hv : vid' = vid
            · subst hv
              rw [hzero]
              simpa using List.countP_le_length _
            · have : (List.countP (fun x => decide (x.video_id = vid)) [w]) = 0 := by
                rw [List.countP_eq_zero]
                intro a ha
                rw [List.mem_singleton] at ha
                subst ha
                simp [hw]
                exact hv
              omega
          rcases ht : (buildVideoData vid' url md env.now db.nextVideoPk).title with
            _ | s | n | b
          · simp only [process_video_url, hex, hfound, hmd, ht]
            exact hbound _ rfl
          · by_cases hcs : (get_video_captions env.captions).success
            · rw [process_eval_caption_success url vid' env db md s hex hfound hmd
                (by rw [← ht]; rfl) hcs]
              cases hai : env.ai with
              | error e =>
                simp only [hai, create_transcript, create_video]
                rw [countP_setVideoCompleted]
                exact hbound _ rfl
              | ok payload =>
                simp only [hai, create_motif_coding, create_transcript, create_video]
                rw [countP_setVideoCompleted]
                exact hbound _ rfl
            · rw [process_eval_caption_fail url vid' env db md s hex hfound hmd
                (by rw [← ht]; rfl) (by simpa using hcs)]
              exact hbound _ rfl
          · simp only [process_video_url, hex, hfound, hmd, ht]
            exact hbound _ rfl
          · simp only [process_video_url, hex, hfound, hmd, ht]
            exact hbound _ rfl

/-- Witness for C2: a database already holding the identifier
`dQw4w9WgXcQ` rejects a second submission of the same identifier,
untouched and with no remote call. -/
theorem process_video_url_idempotent_witness :
    process_video_url "dQw4w9WgXcQ".data sampleEnvNoCaptions sampleDB =
      (.fail "Video already in database".data, sampleDB, []) := by
  exact process_video_url_idempotent.1 _ _ _ "dQw4w9WgXcQ".data
    sampleStoredVideo (by decide) (by decide)

/-! ## C1: caption failure ends in a partial-success state -/

theorem get_video_captions_error_nonempty
    (input : Except TransApiError (List TranscriptInfo))
    (h : (get_video_captions input).success = false) :
    ∃ e, (get_video_captions input).error = some e ∧ e ≠ [] := by
  cases input with
  | error e =>
    cases e with
    | transcriptsDisabled => exact ⟨_, rfl, by decide⟩
    | noTranscriptFound => exact ⟨_, rfl, by decide⟩
    | videoUnavailable => exact ⟨_, rfl, by decide⟩
    | other m =>
      refine ⟨"Unexpected error: ".data ++ m, rfl, ?_⟩
      intro hh
      exact absurd (List.append_eq_nil.1 hh).1 (by decide)
  | ok ts =>
    cases hm : findManualEn ts with
    | some t =>
      cases hf : t.fetched with
      | error m =>
        refine ⟨"Unexpected error: ".data ++ m, ?_, ?_⟩
        · simp only [get_video_captions, hm, hf]
        · intro hh
          exact absurd (List.append_eq_nil.1 hh).1 (by decide)
      | ok entries => simp [get_video_captions, hm, hf] at h
    | none =>
      cases hg : findGeneratedEn ts with
      | some t =>
        cases hf : t.fetched with
        | error m =>
          refine ⟨"Unexpected error: ".data ++ m, ?_, ?_⟩
          · simp only [get_video_captions, hm, hg, hf]
          · intro hh
            exact absurd (List.append_eq_nil.1 hh).1 (by decide)
        | ok entries => simp [get_video_captions, hm, hg, hf] at h
      | none =>
        cases ts with
        | nil =>
          refine ⟨"No transcripts available".data, ?_, by decide⟩
          simp only [get_video_captions, hm, hg]
        | cons t ts' =>
          cases hf : t.fetched with
          | error m =>
            refine ⟨"Unexpected error: ".data ++ m, ?_, ?_⟩
            · simp only [get_video_captions, hm, hg, hf]
            · intro hh
              exact absurd (List.append_eq_nil.1 hh).1 (by decide)
          | ok entries => simp [get_video_captions, hm, hg, hf] at h

/-- **C1** — When the VideoRecord has been created and caption acquisition
then fails, the orchestrator updates that record to status `no_captions`
with a non-empty error message, creates no TranscriptRecord and no
ExtractionRecord, and returns (rather than throws) a partial-success
outcome: `success=False` together with `video_created=True` and the
caption error embedded in the message. -/
theorem caption_failure_partial_success
    (url vid : List Char) (env : PipelineEnv) (db : DB)
    (md : List (String × PyVal)) (t : List Char)
    (hex : extract_video_id url = some vid)
    (hnone : get_video_by_id db vid = none)
    (hmd : env.metadata = some md)
    (htitle : assocGet md "title" = PyVal.vStr t)
    (hfail : (get_video_captions env.captions).success = false) :
    (process_video_url url env db).1.success = false ∧
    (process_video_url url env db).1.video_created = true ∧
    (∃ e, (get_video_captions env.captions).error = some e ∧ e ≠ [] ∧
      (process_video_url url env db).1.error =
        some ("No captions available: ".data ++ e) ∧
      ∃ v', get_video_by_id (process_video_url url env db).2.1 vid = some v' ∧
        v'.status = "no_captions".data ∧ v'.error_message = PyVal.vStr e) ∧
    (process_video_url url env db).2.1.transcripts = db.transcripts ∧
    (process_video_url url env db).2.1.codings = db.codings := by
  have heval := process_eval_caption_fail url vid env db md t hex hnone hmd
    htitle hfail
  obtain ⟨e, he, hene⟩ := get_video_captions_error_nonempty env.captions hfail
  rw [heval]
  refine ⟨rfl, rfl, ⟨e, he, hene, ?_, ?_⟩, rfl, rfl⟩
  · simp [pyFormatOptStr, he]
  · refine ⟨{ buildVideoData vid url md env.now db.nextVideoPk with
        status := "no_captions".data,
        error_message := optStrPV (get_video_captions env.captions).error,
        updated_at := env.now }, ?_, rfl, ?_⟩
    · unfold get_video_by_id
      rw [find?_append_none _ hnone]
      simp [buildVideoData]
    · simp [optStrPV, he]

/-- Witness for C1: ingesting a fresh video whose caption listing raises
`TranscriptsDisabled` yields a `no_captions` record with a non-empty
error message, no transcript, no coding, and a returned partial-success
outcome. -/
theorem caption_failure_partial_success_witness :
    (process_video_url "dQw4w9WgXcQ".data sampleEnvNoCaptions DB.empty).1.success
        = false ∧
    (process_video_url "dQw4w9WgXcQ".data sampleEnvNoCaptions
        DB.empty).1.video_created = true ∧
    (∃ e, (get_video_captions sampleEnvNoCaptions.captions).error = some e ∧
      e ≠ [] ∧
      (process_video_url "dQw4w9WgXcQ".data sampleEnvNoCaptions
          DB.empty).1.error = some ("No captions available: ".data ++ e) ∧
      ∃ v', get_video_by_id
          (process_video_url "dQw4w9WgXcQ".data sampleEnvNoCaptions
            DB.empty).2.1 "dQw4w9WgXcQ".data = some v' ∧
        v'.status = "no_captions".data ∧ v'.error_message = PyVal.vStr e) ∧
    (process_video_url "dQw4w9WgXcQ".data sampleEnvNoCaptions
        DB.empty).2.1.transcripts = [] ∧
    (process_video_url "dQw4w9WgXcQ".data sampleEnvNoCaptions
        DB.empty).2.1.codings = [] := by
  exact caption_failure_partial_success "dQw4w9WgXcQ".data "dQw4w9WgXcQ".data
    sampleEnvNoCaptions DB.empty sampleMd "T".data (by decide) (by decide) rfl
    (by decide) (by decide)

/-! ## C5: word-count invariant -/

theorem get_video_captions_success_fields
    (input : Except TransApiError (List TranscriptInfo))
    (h : (get_video_captions input).success = true) :
    ∃ raw, (get_video_captions input).transcript = some raw ∧
      (get_video_captions input).word_count = (pySplit raw).length := by
  cases input with
  | error e => simp [get_video_captions, CaptionResult.initial] at h
  | ok ts =>
    cases hm : findManualEn ts with
    | some t =>
      cases hf : t.fetched with
      | error m => simp [get_video_captions, CaptionResult.initial, hm, hf] at h
      | ok entries =>
        refine ⟨pyStrip (collapseWs (joinSpace entries)), ?_, ?_⟩
        · simp only [get_video_captions, hm, hf]
        · simp only [get_video_captions, hm, hf]
    | none =>
      cases hg : findGeneratedEn ts with
      | some t =>
        cases hf : t.fetched with
        | error m => simp [get_video_captions, CaptionResult.initial, hm, hg, hf] at h
        | ok entries =>
          refine ⟨pyStrip (collapseWs (joinSpace entries)), ?_, ?_⟩
          · simp only [get_video_captions, hm, hg, hf]
          · simp only [get_video_captions, hm, hg, hf]
      | none =>
        cases ts with
        | nil => simp [get_video_captions, CaptionResult.initial, hm, hg] at h
        | cons t ts' =>
          cases hf : t.fetched with
          | error m => simp [get_video_captions, CaptionResult.initial, hm, hg, hf] at h
          | ok entries =>
            refine ⟨pyStrip (collapseWs (joinSpace entries)), ?_, ?_⟩
            · simp only [get_video_captions, hm, hg, hf]
            · simp only [get_video_captions, hm, hg, hf]

/-- **C5** — The pipeline preserves the invariant that every stored
TranscriptRecord's `word_count` equals the whitespace-token count of its
stored text (`word_count == len(text.split())`): any transcript created by
a run of `process_video_url` stores the acquirer's text together with a
word count computed as `len(full_transcript.split())` from that same
text. -/
theorem stored_word_count_invariant (url : List Char) (env : PipelineEnv)
    (db : DB)
    (hinv : ∀ t ∈ db.transcripts, ∃ raw, t.raw_text = some raw ∧
      t.word_count = (pySplit raw).length) :
    ∀ t ∈ (process_video_url url env db).2.1.transcripts, ∃ raw,
      t.raw_text = some raw ∧ t.word_count = (pySplit raw).length := by
  cases hex : extract_video_id url with
  | none => rw [process_eval_invalid url env db hex]; exact hinv
  | some vid =>
    cases hfound : get_video_by_id db vid with
    | some v => rw [process_eval_exists url vid env db v hex hfound]; exact hinv
    | none =>
      cases hmd : env.metadata with
      | none => rw [process_eval_no_metadata url vid env db hex hfound hmd]; exact hinv
      | some md =>
        rcases ht : (buildVideoData vid url md env.now db.nextVideoPk).title with
          _ | s | n | b
        · simp only [process_video_url, hex, hfound, hmd, ht]
          exact hinv
        · by_cases hcs : (get_video_captions env.captions).success
          · rw [process_eval_caption_success url vid env db md s hex hfound hmd
              (by rw [← ht]; rfl) hcs]
            obtain ⟨raw, hraw, hwc⟩ :=
              get_video_captions_success_fields env.captions hcs
            have hstep : ∀ t ∈ (create_transcript
                (buildVideoData vid url md env.now db.nextVideoPk).id
                (get_video_captions env.captions).language
                (get_video_captions env.captions).is_auto_generated
                (get_video_captions env.captions).transcript
                (get_video_captions env.captions).word_count env.now
                (create_video db
                  (buildVideoData vid url md env.now db.nextVideoPk))).2.transcripts,
                ∃ raw, t.raw_text = some raw ∧
                  t.word_count = (pySplit raw).length := by
              intro t htm
              simp only [create_transcript, create_video] at htm
              rcases List.mem_append.1 htm with hl | hr
              · exact hinv t hl
              · rw [List.mem_singleton] at hr
                subst hr
                exact ⟨raw, hraw, hwc⟩
            cases hai : env.ai with
            | error e => simpa only [hai] using hstep
            | ok payload => simpa only [hai, create_motif_coding] using hstep
          · rw [process_eval_caption_fail url vid env db md s hex hfound hmd
              (by rw [← ht]; rfl) (by simpa using hcs)]
            exact hinv
        · simp only [process_video_url, hex, hfound, hmd, ht]
          exact hinv
        · simp only [process_video_url, hex, hfound, hmd, ht]
          exact hinv

/-- Witness for C5: a successful run on the sample environment stores a
transcript whose word count is the token count of its stored text. -/
theorem stored_word_count_invariant_witness :
    ∃ raw,
      (Transcript.raw_text
        { id := 1, video_id := 1, language := some "en".data,
          is_auto_generated := some false,
          raw_text := some "Hello big world again".data,
          word_count := 4, created_at := 9 }) = some raw ∧
      (Transcript.word_count
        { id := 1, video_id := 1, language := some "en".data,
          is_auto_generated := some false,
          raw_text := some "Hello big world again".data,
          word_count := 4, created_at := 9 }) = (pySplit raw).length := by
  have h := stored_word_count_invariant "dQw4w9WgXcQ".data sampleEnvSuccess
    DB.empty (by intro t htm; exact absurd htm (List.not_mem_nil t))
  exact h _ (by decide)

/-! ## C10: update_video sets exactly the named fields -/

theorem getField_applyUpdate_key (v : Video) (u : VUpdate) :
    (applyUpdate v u).getField u.key = u.val := by
  cases u <;> rfl

theorem getField_applyUpdate_ne (v : Video) (u : VUpdate) (f : VField)
    (h : f ≠ u.key) : (applyUpdate v u).getField f = v.getField f := by
  cases u <;> cases f <;> first | rfl | exact absurd rfl h

theorem getField_applyUpdates_not_mem (us : List VUpdate) (v : Video)
    (f : VField) (h : f ∉ us.map VUpdate.key) :
    (applyUpdates v us).getField f = v.getField f := by
  induction us generalizing v with
  | nil => rfl
  | cons u us ih =>
    rw [List.map_cons, List.mem_cons] at h
    push_neg at h
    calc (applyUpdates v (u :: us)).getField f
        = (applyUpdates (applyUpdate v u) us).getField f := rfl
      _ = (applyUpdate v u).getField f := ih _ h.2
      _ = v.getField f := getField_applyUpdate_ne v u f h.1

theorem getField_applyUpdates_mem (us : List VUpdate) (v : Video)
    (hkeys : (us.map VUpdate.key).Nodup) (u : VUpdate) (hu : u ∈ us) :
    (applyUpdates v us).getField u.key = u.val := by
  induction us generalizing v with
  | nil => exact absurd hu (List.not_mem_nil u)
  | cons u' us ih =>
    rw [List.map_cons, List.nodup_cons] at hkeys
    rcases List.mem_cons.1 hu with rfl | hmem
    · calc (applyUpdates v (u :: us)).getField u.key
          = (applyUpdates (applyUpdate v u) us).getField u.key := rfl
        _ = (applyUpdate v u).getField u.key :=
            getField_applyUpdates_not_mem us _ u.key hkeys.1
        _ = u.val := getField_applyUpdate_key v u
    · exact ih (applyUpdate v u') hkeys.2 hmem

theorem getField_set_updated_at (w : Video) (n : Nat) (f : VField) :
    ({ w with updated_at := n } : Video).getField f = w.getField f := by
  cases f <;> rfl

theorem id_applyUpdates (us : List VUpdate) (v : Video) :
    (applyUpdates v us).id = v.id := by
  induction us generalizing v with
  | nil => rfl
  | cons u us ih =>
    calc (applyUpdates v (u :: us)).id = (applyUpdate v u).id := ih _
      _ = v.id := by cases u <;> rfl

theorem mem_replaceFirstVideo_of_ne (vs : List Video) (vid : List Char)
    (w : Video) (x : Video) (hx : x ∈ vs) (hne : x.video_id ≠ vid) :
    x ∈ replaceFirstVideo vs vid w := by
  induction vs with
  | nil => exact absurd hx (List.not_mem_nil x)
  | cons a vs ih =>
    rcases List.mem_cons.1 hx with rfl | hmem
    · have : ¬(x.video_id = vid) := hne
      simp only [replaceFirstVideo, this, if_false]
      exact List.mem_cons_self x _
    · by_cases ha : a.video_id = vid
      · simp only [replaceFirstVideo, ha, if_true]
        exact List.mem_cons_of_mem w hmem
      · simp only [replaceFirstVideo, ha, if_false]
        exact List.mem_cons_of_mem a (ih hmem)

/-- **C10** — For an existing video, `update_video` sets exactly the
fields named in the update mapping (each named field takes its mapped
value) and leaves every other column of that record unchanged (only the
automatic `updated_at` may additionally change); the primary key is
untouched, rows with other identifiers survive, and the rest of the
database is untouched (the returned state differs only in the replaced
row).  For an unknown identifier it returns the absence value and
changes nothing. -/
theorem update_video_frame (vid : List Char) (us : List VUpdate) (now : Nat)
    (db : DB) (hkeys : (us.map VUpdate.key).Nodup) :
    (∀ v, get_video_by_id db vid = some v →
      ∃ v', update_video vid us now db =
          (some v', { db with videos := replaceFirstVideo db.videos vid v' }) ∧
        (∀ u ∈ us, v'.getField u.key = u.val) ∧
        (∀ f, f ∉ us.map VUpdate.key → v'.getField f = v.getField f) ∧
        v'.id = v.id ∧
        (∀ w ∈ db.videos, w.video_id ≠ vid →
          w ∈ replaceFirstVideo db.videos vid v')) ∧
    (get_video_by_id db vid = none → update_video vid us now db = (none, db)) := by
  constructor
  · intro v hfound
    refine ⟨if applyUpdates v us = v then v
        else { applyUpdates v us with updated_at := now }, ?_, ?_, ?_, ?_, ?_⟩
    · simp only [update_video, hfound]
    · intro u hu
      by_cases hsame : applyUpdates v us = v
      · rw [if_pos hsame, ← hsame]
        exact getField_applyUpdates_mem us v hkeys u hu
      · rw [if_neg hsame, getField_set_updated_at]
        exact getField_applyUpdates_mem us v hkeys u hu
    · intro f hf
      by_cases hsame : applyUpdates v us = v
      · rw [if_pos hsame]
      · rw [if_neg hsame, getField_set_updated_at]
        exact getField_applyUpdates_not_mem us v f hf
    · by_cases hsame : applyUpdates v us = v
      · rw [if_pos hsame]
      · rw [if_neg hsame]
        exact id_applyUpdates us v
    · intro w hw hne
      exact mem_replaceFirstVideo_of_ne db.videos vid _ w hw hne
  · intro hnone
    simp only [update_video, hnone]

/-- Witness for C10: updating status and caption flag of the stored
sample video sets exactly those two fields and leaves the title as it
was. -/
theorem update_video_frame_witness :
    ∃ v', update_video "dQw4w9WgXcQ".data
        [.uStatus "completed".data, .uHasCaptions true] 7 sampleDB =
        (some v', { sampleDB with
          videos := replaceFirstVideo sampleDB.videos "dQw4w9WgXcQ".data v' }) ∧
      v'.getField .fStatus = .fvStr "completed".data ∧
      v'.getField .fHasCaptions = .fvBool true ∧
      v'.getField .fTitle = sampleStoredVideo.getField .fTitle := by
  obtain ⟨v', h1, h2, h3, _, _⟩ :=
    (update_video_frame "dQw4w9WgXcQ".data
      [.uStatus "completed".data, .uHasCaptions true] 7 sampleDB (by decide)).1
      sampleStoredVideo (by decide)
  exact ⟨v', h1,
    h2 (.uStatus "completed".data) (by decide),
    h2 (.uHasCaptions true) (by decide),
    h3 .fTitle (by decide)⟩

/-! ## C4: URL normaliser -/

theorem idChar_ne' {c : Char} (h : idChar c = true) (d : Char)
    (hd : idChar d = false) : c ≠ d := by
  intro e
  rw [e, hd] at h
  cases h

theorem idChar_not_space {c : Char} (h : idChar c = true) :
    isPySpace c = false := by
  by_contra hc
  rw [Bool.not_eq_false] at hc
  simp only [isPySpace, Bool.or_eq_true, decide_eq_true_eq] at hc
  rcases hc with ((((h1 | h1) | h1) | h1) | h1) | h1 <;> subst h1 <;>
    exact absurd h (by decide)

theorem dropWhile_eq_self_of_all {p : Char → Bool} {l : List Char}
    (h : ∀ c ∈ l, p c = false) : l.dropWhile p = l := by
  cases l with
  | nil => rfl
  | cons c cs =>
    rw [List.dropWhile_cons, h c (List.mem_cons_self c cs)]
    simp

theorem pyStrip_eq_self {l : List Char} (h : ∀ c ∈ l, isPySpace c = false) :
    pyStrip l = l := by
  unfold pyStrip
  rw [dropWhile_eq_self_of_all h,
    dropWhile_eq_self_of_all (fun c hc => h c (List.mem_reverse.1 hc)),
    List.reverse_reverse]

theorem keepTabNl_of_idChar {c : Char} (h : idChar c = true) :
    (!(c = '\t' || c = '\r' || c = '\n') : Bool) = true := by
  have h1 : (decide (c = '\t')) = false := decide_eq_false (idChar_ne' h '\t' (by decide))
  have h2 : (decide (c = '\r')) = false := decide_eq_false (idChar_ne' h '\r' (by decide))
  have h3 : (decide (c = '\n')) = false := decide_eq_false (idChar_ne' h '\n' (by decide))
  simp [h1, h2, h3]

theorem removeTabNl_append_id (W q : List Char) (hW : removeTabNl W = W)
    (hq : ∀ c ∈ q, idChar c = true) :
    removeTabNl (W ++ q) = W ++ q := by
  unfold removeTabNl at hW ⊢
  rw [List.filter_append, hW]
  congr 1
  rw [List.filter_eq_self]
  intro a ha
  exact keepTabNl_of_idChar (hq a ha)

theorem splitAtFirst_none_of_all {c : Char} {l : List Char}
    (h : ∀ d ∈ l, d ≠ c) : splitAtFirst c l = none := by
  induction l with
  | nil => rfl
  | cons d ds ih =>
    have hd : (d = c) = False := by
      simp [h d (List.mem_cons_self d ds)]
    simp only [splitAtFirst, hd, if_false]
    rw [ih (fun x hx => h x (List.mem_cons_of_mem d hx))]

theorem unquotePlus_cons_safe (c : Char) (cs : List Char) (h1 : c ≠ '+')
    (h2 : c ≠ '%') : unquotePlus (c :: cs) = c :: unquotePlus cs := by
  rw [unquotePlus.eq_def]
  split
  · simp_all
  · simp_all
  · simp_all
  · rename_i heq
    injection heq with e1 e2
    subst e1
    subst e2
    rfl

theorem unquotePlus_eq_self {q : List Char} (hq : ∀ c ∈ q, idChar c = true) :
    unquotePlus q = q := by
  induction q with
  | nil => rfl
  | cons c cs ih =>
    have hc := hq c (List.mem_cons_self c cs)
    rw [unquotePlus_cons_safe c cs (idChar_ne' hc '+' (by decide))
      (idChar_ne' hc '%' (by decide))]
    rw [ih (fun x hx => hq x (List.mem_cons_of_mem c hx))]

theorem splitOnCh_no_sep (sep : Char) (l : List Char)
    (h : ∀ c ∈ l, c ≠ sep) : splitOnCh sep l = [l] := by
  induction l with
  | nil => rfl
  | cons c cs ih =>
    have hc : (c = sep) = False := by simp [h c (List.mem_cons_self c cs)]
    simp only [splitOnCh, hc, if_false]
    rw [ih (fun x hx => h x (List.mem_cons_of_mem c hx))]

theorem matchIdClass_exact (l : List Char) (h : ∀ c ∈ l, idChar c = true) :
    matchIdClass l.length l = some (l, []) := by
  induction l with
  | nil => rfl
  | cons c cs ih =>
    simp only [List.length_cons, matchIdClass,
      h c (List.mem_cons_self c cs), if_true]
    rw [ih (fun x hx => h x (List.mem_cons_of_mem c hx))]

theorem fullMatchId11_false_of_len {l : List Char} (h : l.length ≠ 11) :
    fullMatchId11 l = false := by
  unfold fullMatchId11
  rw [decide_eq_false h, Bool.false_and]

theorem fullMatchId11_true {l : List Char} (hlen : l.length = 11)
    (h : ∀ c ∈ l, idChar c = true) : fullMatchId11 l = true := by
  unfold fullMatchId11
  rw [decide_eq_true hlen, Bool.true_and, List.all_eq_true]
  exact h

theorem forall_mem_append_of {P : Char → Prop} {l₁ l₂ : List Char}
    (h1 : ∀ c ∈ l₁, P c) (h2 : ∀ c ∈ l₂, P c) : ∀ c ∈ l₁ ++ l₂, P c := by
  intro c hc
  rcases List.mem_append.1 hc with h | h
  · exact h1 c h
  · exact h2 c h

theorem splitFragment_none {u : List Char} (h : ∀ d ∈ u, d ≠ '#') :
    splitFragment u = (u, []) := by
  unfold splitFragment
  rw [splitAtFirst_none_of_all h]

theorem splitQuery_none {u : List Char} (h : ∀ d ∈ u, d ≠ '?') :
    splitQuery u = (u, []) := by
  unfold splitQuery
  rw [splitAtFirst_none_of_all h]

theorem urlparse_watch (q : List Char) (hq : ∀ c ∈ q, idChar c = true) :
    pyUrlparse ("https://www.youtube.com/watch?v=".data ++ q) =
      ⟨"https".data, "www.youtube.com".data, "/watch".data,
       "v=".data ++ q, []⟩ := by
  have h1 : removeTabNl ("https://www.youtube.com/watch?v=".data ++ q) =
      "https://www.youtube.com/watch?v=".data ++ q :=
    removeTabNl_append_id _ q (by decide) hq
  have h2 : splitScheme ("https://www.youtube.com/watch?v=".data ++ q) =
      ("https".data, "//www.youtube.com/watch?v=".data ++ q) := rfl
  have h3 : splitNetloc ("//www.youtube.com/watch?v=".data ++ q) =
      ("www.youtube.com".data, "/watch?v=".data ++ q) := rfl
  have h4 : splitFragment ("/watch?v=".data ++ q) =
      ("/watch?v=".data ++ q, []) :=
    splitFragment_none (forall_mem_append_of (by decide)
      (fun c hc => idChar_ne' (hq c hc) '#' (by decide)))
  have h5 : splitQuery ("/watch?v=".data ++ q) =
      ("/watch".data, "v=".data ++ q) := rfl
  simp only [pyUrlparse, h1, h2, h3, h4, h5]

theorem urlparse_short (id : List Char) (hid : ∀ c ∈ id, idChar c = true) :
    pyUrlparse ("https://youtu.be/".data ++ id) =
      ⟨"https".data, "youtu.be".data, '/' :: id, [], []⟩ := by
  have h1 : removeTabNl ("https://youtu.be/".data ++ id) =
      "https://youtu.be/".data ++ id :=
    removeTabNl_append_id _ id (by decide) hid
  have h2 : splitScheme ("https://youtu.be/".data ++ id) =
      ("https".data, "//youtu.be/".data ++ id) := rfl
  have h3 : splitNetloc ("//youtu.be/".data ++ id) =
      ("youtu.be".data, '/' :: id) := rfl
  have h4 : splitFragment ('/' :: id) = ('/' :: id, []) := by
    apply splitFragment_none
    intro d hd
    rcases List.mem_cons.1 hd with rfl | hmem
    · decide
    · exact idChar_ne' (hid d hmem) '#' (by decide)
  have h5 : splitQuery ('/' :: id) = ('/' :: id, []) := by
    apply splitQuery_none
    intro d hd
    rcases List.mem_cons.1 hd with rfl | hmem
    · decide
    · exact idChar_ne' (hid d hmem) '?' (by decide)
  simp only [pyUrlparse, h1, h2, h3, h4, h5]

theorem urlparse_embed (id : List Char) (hid : ∀ c ∈ id, idChar c = true) :
    pyUrlparse ("https://www.youtube.com/embed/".data ++ id) =
      ⟨"https".data, "www.youtube.com".data, "/embed/".data ++ id, [], []⟩ := by
  have h1 : removeTabNl ("https://www.youtube.com/embed/".data ++ id) =
      "https://www.youtube.com/embed/".data ++ id :=
    removeTabNl_append_id _ id (by decide) hid
  have h2 : splitScheme ("https://www.youtube.com/embed/".data ++ id) =
      ("https".data, "//www.youtube.com/embed/".data ++ id) := rfl
  have h3 : splitNetloc ("//www.youtube.com/embed/".data ++ id) =
      ("www.youtube.com".data, "/embed/".data ++ id) := rfl
  have h4 : splitFragment ("/embed/".data ++ id) =
      ("/embed/".data ++ id, []) :=
    splitFragment_none (forall_mem_append_of (by decide)
      (fun c hc => idChar_ne' (hid c hc) '#' (by decide)))
  have h5 : splitQuery ("/embed/".data ++ id) = ("/embed/".data ++ id, []) :=
    splitQuery_none (forall_mem_append_of (by decide)
      (fun c hc => idChar_ne' (hid c hc) '?' (by decide)))
  simp only [pyUrlparse, h1, h2, h3, h4, h5]

theorem qsGetV_watch (q : List Char) (hqne : q ≠ [])
    (hq : ∀ c ∈ q, idChar c = true) :
    qsGetVFirst ("v=".data ++ q) = some q := by
  have hsplit : splitOnCh '&' ("v=".data ++ q) = ["v=".data ++ q] :=
    splitOnCh_no_sep '&' _ (forall_mem_append_of (by decide)
      (fun c hc => idChar_ne' (hq c hc) '&' (by decide)))
  have hpe : ("v=".data ++ q).isEmpty = false := rfl
  have hs : splitAtFirst '=' ("v=".data ++ q) = some ("v".data, q) := rfl
  have hqe : q.isEmpty = false := by
    cases q with
    | nil => exact absurd rfl hqne
    | cons a l => rfl
  have hv : unquotePlus "v".data = "v".data := rfl
  unfold qsGetVFirst parseQsl
  rw [hsplit]
  simp only [List.foldr_cons, List.foldr_nil, hpe, Bool.false_eq_true,
    if_false, hs, hqe, hv, unquotePlus_eq_self hq]
  rw [List.find?_cons_of_pos _ (by rfl)]

theorem extract_raw (id : List Char) (hlen : id.length = 11)
    (hid : ∀ c ∈ id, idChar c = true) : extract_video_id id = some id := by
  have hne : id.isEmpty = false := by
    cases id with
    | nil => simp at hlen
    | cons a l => rfl
  have hstrip : pyStrip id = id :=
    pyStrip_eq_self (fun c hc => idChar_not_space (hid c hc))
  have hfm : fullMatchId11 id = true := fullMatchId11_true hlen hid
  simp only [extract_video_id, hne, Bool.false_eq_true, if_false, hstrip,
    hfm, if_true]

set_option maxHeartbeats 1600000 in
theorem extract_watch (q : List Char) (hqne : q ≠ [])
    (hq : ∀ c ∈ q, idChar c = true) :
    extract_video_id ("https://www.youtube.com/watch?v=".data ++ q) =
      some q := by
  have hne : ("https://www.youtube.com/watch?v=".data ++ q).isEmpty = false := by
    rfl
  have hstrip : pyStrip ("https://www.youtube.com/watch?v=".data ++ q) =
      "https://www.youtube.com/watch?v=".data ++ q :=
    pyStrip_eq_self (forall_mem_append_of (by decide)
      (fun c hc => idChar_not_space (hq c hc)))
  have hfm : fullMatchId11 ("https://www.youtube.com/watch?v=".data ++ q) =
      false := by
    apply fullMatchId11_false_of_len
    rw [List.length_append]
    have h32 : ("https://www.youtube.com/watch?v=".data : List Char).length = 32 := by
      decide
    rw [h32]
    omega
  have hup := urlparse_watch q hq
  have hcont : containsSeq "youtube.com".data "www.youtube.com".data = true := by
    decide
  have hpath : (decide (("/watch".data : List Char) = "/watch".data)) = true := by
    decide
  have hqs := qsGetV_watch q hqne hq
  simp only [extract_video_id, hne, Bool.false_eq_true, if_false, hstrip,
    hfm, hup, hcont, if_true, hpath, hqs, decide_True]

set_option maxHeartbeats 1600000 in
theorem extract_short (id : List Char) (hlen : id.length = 11)
    (hid : ∀ c ∈ id, idChar c = true) :
    extract_video_id ("https://youtu.be/".data ++ id) = some id := by
  have hne : ("https://youtu.be/".data ++ id).isEmpty = false := rfl
  have hstrip : pyStrip ("https://youtu.be/".data ++ id) =
      "https://youtu.be/".data ++ id :=
    pyStrip_eq_self (forall_mem_append_of (by decide)
      (fun c hc => idChar_not_space (hid c hc)))
  have hfm : fullMatchId11 ("https://youtu.be/".data ++ id) = false := by
    apply fullMatchId11_false_of_len
    rw [List.length_append]
    have h17 : ("https://youtu.be/".data : List Char).length = 17 := by decide
    rw [h17, hlen]
    omega
  have hup := urlparse_short id hid
  have hcont1 : containsSeq "youtube.com".data "youtu.be".data = false := by
    decide
  have hcont2 : containsSeq "youtu.be".data "youtu.be".data = true := by decide
  have hdrop : ('/' :: id).dropWhile (fun c => decide (c = '/')) = id := by
    rw [List.dropWhile_cons]
    simp only [decide_eq_true_eq, if_pos rfl]
    apply dropWhile_eq_self_of_all
    intro c hc
    exact decide_eq_false (idChar_ne' (hid c hc) '/' (by decide))
  have hsplitq : splitAtFirst '?' id = none :=
    splitAtFirst_none_of_all (fun d hd => idChar_ne' (hid d hd) '?' (by decide))
  have hfm2 : fullMatchId11 id = true := fullMatchId11_true hlen hid
  simp only [extract_video_id, hne, Bool.false_eq_true, if_false, hstrip,
    hfm, hup, hcont1, hcont2, if_true, hdrop, hsplitq, hfm2, decide_True]

theorem extract_embed (id : List Char) (hlen : id.length = 11)
    (hid : ∀ c ∈ id, idChar c = true) :
    extract_video_id ("https://www.youtube.com/embed/".data ++ id) =
      some id := by
  have hne : ("https://www.youtube.com/embed/".data ++ id).isEmpty = false := by
    rfl
  have hstrip : pyStrip ("https://www.youtube.com/embed/".data ++ id) =
      "https://www.youtube.com/embed/".data ++ id :=
    pyStrip_eq_self (forall_mem_append_of (by decide)
      (fun c hc => idChar_not_space (hid c hc)))
  have hfm : fullMatchId11 ("https://www.youtube.com/embed/".data ++ id) =
      false := by
    apply fullMatchId11_false_of_len
    rw [List.length_append]
    have h30 : ("https://www.youtube.com/embed/".data : List Char).length = 30 := by
      decide
    rw [h30, hlen]
    omega
  have hup := urlparse_embed id hid
  have hcont : containsSeq "youtube.com".data "www.youtube.com".data = true := by
    decide
  have hpathne : (decide (("/embed/".data ++ id : List Char) = "/watch".data)) =
      false := by
    apply decide_eq_false
    intro h
    have hlen' := congrArg List.length h
    rw [List.length_append] at hlen'
    have h7 : ("/embed/".data : List Char).length = 7 := by decide
    have h6 : ("/watch".data : List Char).length = 6 := by decide
    rw [h7, h6, hlen] at hlen'
    omega
  have hmc : matchIdClass 11 id = some (id, []) := by
    rw [← hlen]
    exact matchIdClass_exact id hid
  have htry : tryEmbedAt ('/' :: ("embed/".data ++ id)) = some id := by
    simp only [tryEmbedAt]
    have hsw : startsWithSeq "embed/".data ("embed/".data ++ id) = true := rfl
    rw [hsw]
    have hdrop6 : (("embed/".data ++ id : List Char)).drop 6 = id := rfl
    simp only [if_true, hdrop6, hmc, Option.map_some']
  have hsearch : searchEmbedId ("/embed/".data ++ id) = some id := by
    show searchEmbedId ('/' :: ("embed/".data ++ id)) = some id
    simp only [searchEmbedId, htry]
  simp only [extract_video_id, hne, Bool.false_eq_true, if_false, hstrip,
    hfm, hup, hcont, if_true, hpathne, hsearch]

/-- Counterexample for C4 as stated: the `/watch` branch returns the `v`
query parameter without validating it, so a 3-character token is
returned rather than a fixed-length 11-character identifier or `None`. -/
theorem extract_video_id_counterexample :
    extract_video_id "https://www.youtube.com/watch?v=abc".data =
      some "abc".data ∧ ("abc".data : List Char).length ≠ 11 := by
  decide

/-- **C4 (amended)** — The normaliser never throws (it is a total
function into an option type); a raw 11-character token over the
restricted alphabet and the short-link and embed shapes carrying it all
yield that same identifier; the long-form watch shape returns its first
`v` query parameter *verbatim* (the same identifier when an 11-character
identifier is supplied, but arbitrary non-empty parameter values pass
through unvalidated); and strings matching no supported shape, such as
the spec's `"not-a-url"` and `"https://invalid.com/video"`, yield the
absence value. -/
theorem extract_video_id_amended (id q : List Char)
    (hlen : id.length = 11) (hid : ∀ c ∈ id, idChar c = true)
    (hqne : q ≠ []) (hq : ∀ c ∈ q, idChar c = true) :
    extract_video_id id = some id ∧
    extract_video_id ("https://www.youtube.com/watch?v=".data ++ q) = some q ∧
    extract_video_id ("https://youtu.be/".data ++ id) = some id ∧
    extract_video_id ("https://www.youtube.com/embed/".data ++ id) = some id ∧
    extract_video_id "not-a-url".data = none ∧
    extract_video_id "https://invalid.com/video".data = none :=
  ⟨extract_raw id hlen hid, extract_watch q hqne hq,
   extract_short id hlen hid, extract_embed id hlen hid,
   by decide, by decide⟩

/-- Witness for C4 at the identifier `dQw4w9WgXcQ` and the short watch
parameter `abc`. -/
theorem extract_video_id_amended_witness :
    extract_video_id "dQw4w9WgXcQ".data = some "dQw4w9WgXcQ".data ∧
    extract_video_id ("https://www.youtube.com/watch?v=".data ++ "abc".data) =
      some "abc".data ∧
    extract_video_id ("https://youtu.be/".data ++ "dQw4w9WgXcQ".data) =
      some "dQw4w9WgXcQ".data ∧
    extract_video_id ("https://www.youtube.com/embed/".data ++
      "dQw4w9WgXcQ".data) = some "dQw4w9WgXcQ".data ∧
    extract_video_id "not-a-url".data = none ∧
    extract_video_id "https://invalid.com/video".data = none := by
  exact extract_video_id_amended "dQw4w9WgXcQ".data "abc".data (by decide)
    (by decide) (by decide) (by decide)

/-! ## C7: subtitle stripping on well-formed SRT documents -/

theorem isPyDigit_ne_nl {c : Char} (h : isPyDigit c = true) : c ≠ '\n' := by
  intro e
  subst e
  exact absurd h (by decide)

theorem tsShape29_props {l : List Char} (h : tsShape29 l = true) :
    l.length = 29 ∧ (∀ c ∈ l, c ≠ '\n') ∧ l.all isPyDigit = false := by
  rw [tsShape29.eq_def] at h
  split at h
  · rename_i a1 a2 b1 a3 a4 b2 a5 a6 b3 a7 a8 a9 s1 d1 d2 g1 s2 c1 c2 e1 c3
      c4 e2 c5 c6 e3 c7 c8 c9
    simp only [Bool.and_eq_true, decide_eq_true_eq] at h
    obtain ⟨h, p29⟩ := h
    obtain ⟨h, p28⟩ := h
    obtain ⟨h, p27⟩ := h
    obtain ⟨h, p26⟩ := h
    obtain ⟨h, p25⟩ := h
    obtain ⟨h, p24⟩ := h
    obtain ⟨h, p23⟩ := h
    obtain ⟨h, p22⟩ := h
    obtain ⟨h, p21⟩ := h
    obtain ⟨h, p20⟩ := h
    obtain ⟨h, p19⟩ := h
    obtain ⟨h, p18⟩ := h
    obtain ⟨h, p17⟩ := h
    obtain ⟨h, p16⟩ := h
    obtain ⟨h, p15⟩ := h
    obtain ⟨h, p14⟩ := h
    obtain ⟨h, p13⟩ := h
    obtain ⟨h, p12⟩ := h
    obtain ⟨h, p11⟩ := h
    obtain ⟨h, p10⟩ := h
    obtain ⟨h, p9⟩ := h
    obtain ⟨h, p8⟩ := h
    obtain ⟨h, p7⟩ := h
    obtain ⟨h, p6⟩ := h
    obtain ⟨h, p5⟩ := h
    obtain ⟨h, p4⟩ := h
    obtain ⟨h, p3⟩ := h
    obtain ⟨p1, p2⟩ := h
    refine ⟨rfl, ?_, ?_⟩
    · intro c hc
      simp only [List.mem_cons, List.not_mem_nil, or_false] at hc
      rcases hc with rfl | rfl | rfl | rfl | rfl | rfl | rfl | rfl | rfl |
        rfl | rfl | rfl | rfl | rfl | rfl | rfl | rfl | rfl | rfl | rfl |
        rfl | rfl | rfl | rfl | rfl | rfl | rfl | rfl | rfl <;>
        first
          | exact isPyDigit_ne_nl (by assumption)
          | (subst_vars; decide)
    · subst p3
      rw [List.all_eq_false]
      exact ⟨':', by simp, by decide⟩
  · cases h

theorem tsShape29_tsSuffix {l : List Char} (h : tsShape29 l = true) :
    tsSuffix29 l = true := by
  have h29 := (tsShape29_props h).1
  unfold tsSuffix29
  rw [h29]
  simp only [Nat.sub_self, List.drop_zero, h]
  rfl

theorem tsShape29_not_seqLine {l : List Char} (h : tsShape29 l = true) :
    isSeqLine l = false := by
  unfold isSeqLine
  rw [(tsShape29_props h).2.2, Bool.and_false]

theorem isSeqLine_no_nl {l : List Char} (h : isSeqLine l = true) :
    ∀ c ∈ l, c ≠ '\n' := by
  intro c hc
  unfold isSeqLine at h
  rw [Bool.and_eq_true, List.all_eq_true] at h
  exact isPyDigit_ne_nl (h.2 c hc)

theorem wfLineB_props {l : List Char} (h : wfLineB l = true) :
    l ≠ [] ∧ (∀ c ∈ l, c ≠ '\n') ∧ isSeqLine l = false ∧
    tsSuffix29 l = false ∧ headNotSpace l = true ∧ lastNotSpace l = true := by
  unfold wfLineB at h
  simp only [Bool.and_eq_true, Bool.not_eq_true'] at h
  obtain ⟨⟨⟨⟨⟨h1, h2⟩, h3⟩, h4⟩, h5⟩, h6⟩ := h
  refine ⟨?_, ?_, ?_, h4, h5, h6⟩
  · intro e
    subst e
    cases h1
  · intro c hc
    rw [List.all_eq_true] at h2
    have := h2 c hc
    simp only [Bool.not_eq_true', decide_eq_false_iff_not] at this
    exact this
  · unfold isSeqLine
    rw [h3, Bool.and_false]

/-! Pass-1 structure lemmas -/

theorem splitOnNl_line {l : List Char} (h : ∀ c ∈ l, c ≠ '\n')
    (rest : List Char) :
    splitOnNl (l ++ '\n' :: rest) = l :: splitOnNl rest := by
  induction l with
  | nil => rfl
  | cons c cs ih =>
    have hc : (c = '\n') = False := by
      simp [h c (List.mem_cons_self c cs)]
    simp only [List.cons_append, splitOnNl, hc, if_false, List.append_eq]
    rw [ih (fun x hx => h x (List.mem_cons_of_mem c hx))]

theorem splitOnNl_no_nl {l : List Char} (h : ∀ c ∈ l, c ≠ '\n') :
    splitOnNl l = [l] := by
  induction l with
  | nil => rfl
  | cons c cs ih =>
    have hc : (c = '\n') = False := by
      simp [h c (List.mem_cons_self c cs)]
    simp only [splitOnNl, hc, if_false]
    rw [ih (fun x hx => h x (List.mem_cons_of_mem c hx))]

theorem splitOnNl_joinNl_lines {lines : List (List Char)}
    (hl : ∀ l ∈ lines, ∀ c ∈ l, c ≠ '\n') (hne : lines ≠ [])
    (rest : List Char) :
    splitOnNl (joinNl lines ++ '\n' :: rest) = lines ++ splitOnNl rest := by
  induction lines with
  | nil => exact absurd rfl hne
  | cons l ls ih =>
    cases ls with
    | nil =>
      show splitOnNl (l ++ '\n' :: rest) = l :: splitOnNl rest
      exact splitOnNl_line (hl l (List.mem_cons_self l [])) rest
    | cons l2 ls2 =>
      show splitOnNl ((l ++ '\n' :: joinNl (l2 :: ls2)) ++ '\n' :: rest) = _
      rw [List.append_assoc, List.cons_append]
      rw [splitOnNl_line (hl l (List.mem_cons_self l _)) _]
      rw [ih (fun x hx => hl x (List.mem_cons_of_mem l hx)) (by simp)]
      rfl

theorem splitOnNl_renderSrt {blocks : List SrtBlock}
    (hwf : ∀ b ∈ blocks, wfBlockB b = true) :
    splitOnNl (renderSrt blocks) = partsOf blocks := by
  induction blocks with
  | nil => rfl
  | cons b bs ih =>
    have hb := hwf b (List.mem_cons_self b bs)
    unfold wfBlockB at hb
    simp only [Bool.and_eq_true] at hb
    obtain ⟨⟨⟨hseq, hts⟩, hlne⟩, hlwf⟩ := hb
    have hlines_ne : b.lines ≠ [] := by
      intro e
      rw [e] at hlne
      cases hlne
    show splitOnNl (renderBlock b ++ renderSrt bs) = _
    unfold renderBlock
    rw [List.append_assoc, List.cons_append]
    rw [splitOnNl_line (isSeqLine_no_nl hseq)]
    rw [List.append_assoc, List.cons_append]
    rw [splitOnNl_line ((tsShape29_props hts).2.1)]
    rw [List.append_assoc, List.cons_append]
    show b.seq :: b.ts ::
      splitOnNl (joinNl b.lines ++ '\n' :: ('\n' :: renderSrt bs)) = _
    rw [splitOnNl_joinNl_lines ?hl hlines_ne]
    case hl =>
      intro l hlmem c hc
      rw [List.all_eq_true] at hlwf
      exact (wfLineB_props (hlwf l hlmem)).2.1 c hc
    show b.seq :: b.ts :: (b.lines ++ [] :: splitOnNl (renderSrt bs)) = _
    rw [ih (fun x hx => hwf x (List.mem_cons_of_mem b hx))]
    rfl

/-! Pass-1/Pass-2 list traversals -/

theorem keepNonSeq_cons (p : List Char) (ps : List (List Char))
    (h : ps ≠ []) :
    keepNonSeq (p :: ps) =
      if isSeqLine p then keepNonSeq ps else p :: keepNonSeq ps := by
  cases ps with
  | nil => exact absurd rfl h
  | cons x xs => rfl

theorem keepNonSeq_lines (ls : List (List Char)) (rest : List (List Char))
    (hl : ∀ l ∈ ls, isSeqLine l = false) (h : rest ≠ []) :
    keepNonSeq (ls ++ rest) = ls ++ keepNonSeq rest := by
  induction ls with
  | nil => rfl
  | cons l ls ih =>
    rw [List.cons_append,
      keepNonSeq_cons l (ls ++ rest) (by simp [h]),
      hl l (List.mem_cons_self l ls)]
    simp only [Bool.false_eq_true, if_false]
    rw [ih (fun x hx => hl x (List.mem_cons_of_mem l hx))]
    rfl

theorem partsOf_ne_nil (blocks : List SrtBlock) : partsOf blocks ≠ [] := by
  cases blocks with
  | nil => simp [partsOf]
  | cons b bs => simp [partsOf]

theorem partsNoSeq_ne_nil (blocks : List SrtBlock) : partsNoSeq blocks ≠ [] := by
  cases blocks with
  | nil => simp [partsNoSeq]
  | cons b bs => simp [partsNoSeq]

theorem keepNonSeq_partsOf {blocks : List SrtBlock}
    (hwf : ∀ b ∈ blocks, wfBlockB b = true) :
    keepNonSeq (partsOf blocks) = partsNoSeq blocks := by
  induction blocks with
  | nil => rfl
  | cons b bs ih =>
    have hb := hwf b (List.mem_cons_self b bs)
    unfold wfBlockB at hb
    simp only [Bool.and_eq_true] at hb
    obtain ⟨⟨⟨hseq, hts⟩, hlne⟩, hlwf⟩ := hb
    show keepNonSeq (b.seq :: b.ts :: (b.lines ++ [] :: partsOf bs)) = _
    rw [keepNonSeq_cons _ _ (by simp), hseq]
    simp only [if_true]
    rw [keepNonSeq_cons _ _ (by simp), tsShape29_not_seqLine hts]
    simp only [Bool.false_eq_true, if_false]
    rw [keepNonSeq_lines _ _ ?hseqf (by simp)]
    case hseqf =>
      intro l hlmem
      rw [List.all_eq_true] at hlwf
      exact (wfLineB_props (hlwf l hlmem)).2.2.1
    rw [keepNonSeq_cons _ _ (partsOf_ne_nil bs)]
    have : isSeqLine [] = false := rfl
    rw [this]
    simp only [Bool.false_eq_true, if_false]
    rw [ih (fun x hx => hwf x (List.mem_cons_of_mem b hx))]
    rfl

theorem splitOnNl_joinNl (parts : List (List Char))
    (h : ∀ p ∈ parts, ∀ c ∈ p, c ≠ '\n') (hne : parts ≠ []) :
    splitOnNl (joinNl parts) = parts := by
  induction parts with
  | nil => exact absurd rfl hne
  | cons p ps ih =>
    cases ps with
    | nil => exact splitOnNl_no_nl (h p (List.mem_cons_self p []))
    | cons x xs =>
      show splitOnNl (p ++ '\n' :: joinNl (x :: xs)) = _
      rw [splitOnNl_line (h p (List.mem_cons_self p _))]
      rw [ih (fun q hq => h q (List.mem_cons_of_mem p hq)) (by simp)]

theorem stripTsParts_cons (p : List Char) (ps : List (List Char))
    (h : ps ≠ []) :
    stripTsParts (p :: ps) =
      if tsSuffix29 p then p.take (p.length - 29) ++ stripTsParts ps
      else p ++ '\n' :: stripTsParts ps := by
  cases ps with
  | nil => exact absurd rfl h
  | cons x xs => rfl

theorem stripTsParts_lines (ls : List (List Char)) (rest : List (List Char))
    (hl : ∀ l ∈ ls, tsSuffix29 l = false) (h : rest ≠ []) :
    stripTsParts (ls ++ rest) = lineFlat ls (stripTsParts rest) := by
  induction ls with
  | nil => rfl
  | cons l ls ih =>
    rw [List.cons_append,
      stripTsParts_cons l (ls ++ rest) (by simp [h]),
      hl l (List.mem_cons_self l ls)]
    simp only [Bool.false_eq_true, if_false]
    rw [ih (fun x hx => hl x (List.mem_cons_of_mem l hx))]
    rfl

theorem stripTsParts_partsNoSeq {blocks : List SrtBlock}
    (hwf : ∀ b ∈ blocks, wfBlockB b = true) :
    stripTsParts (partsNoSeq blocks) = flatT blocks := by
  induction blocks with
  | nil => rfl
  | cons b bs ih =>
    have hb := hwf b (List.mem_cons_self b bs)
    unfold wfBlockB at hb
    simp only [Bool.and_eq_true] at hb
    obtain ⟨⟨⟨hseq, hts⟩, hlne⟩, hlwf⟩ := hb
    show stripTsParts (b.ts :: (b.lines ++ [] :: partsNoSeq bs)) = _
    rw [stripTsParts_cons _ _ (by simp), tsShape29_tsSuffix hts]
    simp only [if_true]
    rw [(tsShape29_props hts).1]
    simp only [Nat.sub_self, List.take_zero, List.nil_append]
    rw [stripTsParts_lines _ _ ?htsf (by simp)]
    case htsf =>
      intro l hlmem
      rw [List.all_eq_true] at hlwf
      exact (wfLineB_props (hlwf l hlmem)).2.2.2.1
    rw [stripTsParts_cons _ _ (partsNoSeq_ne_nil bs)]
    have : tsSuffix29 [] = false := rfl
    rw [this]
    simp only [Bool.false_eq_true, if_false, List.nil_append]
    rw [ih (fun x hx => hwf x (List.mem_cons_of_mem b hx))]
    rfl

/-! Pass-3 (newline collapsing) -/

theorem collapseNlGo_cons_ne (n : Nat) (c : Char) (r : List Char)
    (h : c ≠ '\n') :
    collapseNlGo n (c :: r) = emitNlRun n ++ c :: collapseNlGo 0 r := by
  have hc : (c = '\n') = False := by simp [h]
  simp only [collapseNlGo, hc, if_false]

theorem collapseNlGo_line (l : List Char) (h : ∀ c ∈ l, c ≠ '\n')
    (rest : List Char) :
    collapseNlGo 0 (l ++ rest) = l ++ collapseNlGo 0 rest := by
  induction l with
  | nil => rfl
  | cons c cs ih =>
    rw [List.cons_append,
      collapseNlGo_cons_ne 0 c _ (h c (List.mem_cons_self c cs))]
    show c :: collapseNlGo 0 (cs ++ rest) = _
    rw [ih (fun x hx => h x (List.mem_cons_of_mem c hx))]
    rfl

theorem collapseNlGo_one (T : List Char) (h : headNotNlP T) :
    collapseNlGo 1 T = '\n' :: collapseNlGo 0 T := by
  cases T with
  | nil => rfl
  | cons c r =>
    rw [collapseNlGo_cons_ne 1 c r h, collapseNlGo_cons_ne 0 c r h]
    rfl

theorem collapseNlGo_two (T : List Char) (h : headNotNlP T) :
    collapseNlGo 2 T = '\n' :: '\n' :: collapseNlGo 0 T := by
  cases T with
  | nil => rfl
  | cons c r =>
    rw [collapseNlGo_cons_ne 2 c r h, collapseNlGo_cons_ne 0 c r h]
    rfl

theorem headNotNlP_lineFlat (ls : List (List Char)) (T : List Char)
    (hl : ∀ l ∈ ls, l ≠ [] ∧ ∀ c ∈ l, c ≠ '\n') (hT : headNotNlP T) :
    headNotNlP (lineFlat ls T) := by
  cases ls with
  | nil => exact hT
  | cons l ls' =>
    obtain ⟨hne, hnl⟩ := hl l (List.mem_cons_self l ls')
    cases l with
    | nil => exact absurd rfl hne
    | cons c cs =>
      show headNotNlP ((c :: cs) ++ '\n' :: lineFlat ls' T)
      exact hnl c (List.mem_cons_self c cs)

theorem collapseNlGo_block (ls : List (List Char)) (T : List Char)
    (hl : ∀ l ∈ ls, l ≠ [] ∧ ∀ c ∈ l, c ≠ '\n') (hT : headNotNlP T) :
    collapseNlGo 0 (lineFlat ls ('\n' :: T)) =
      lineFlat ls ('\n' :: collapseNlGo 0 T) := by
  induction ls with
  | nil =>
    show collapseNlGo 0 ('\n' :: T) = '\n' :: collapseNlGo 0 T
    show collapseNlGo 1 T = _
    exact collapseNlGo_one T hT
  | cons l ls' ih =>
    obtain ⟨hne, hnl⟩ := hl l (List.mem_cons_self l ls')
    show collapseNlGo 0 (l ++ '\n' :: lineFlat ls' ('\n' :: T)) = _
    rw [collapseNlGo_line l hnl]
    show l ++ collapseNlGo 1 (lineFlat ls' ('\n' :: T)) = _
    cases ls' with
    | nil =>
      show l ++ collapseNlGo 1 ('\n' :: T) = _
      show l ++ collapseNlGo 2 T = _
      rw [collapseNlGo_two T hT]
      rfl
    | cons l2 ls2 =>
      have hhead : headNotNlP (lineFlat (l2 :: ls2) ('\n' :: T)) := by
        obtain ⟨hne2, hnl2⟩ := hl l2 (List.mem_cons_of_mem l
          (List.mem_cons_self l2 ls2))
        cases hl2 : l2 with
        | nil => exact absurd hl2 hne2
        | cons c cs =>
          show headNotNlP ((c :: cs) ++ '\n' :: lineFlat ls2 ('\n' :: T))
          exact hnl2 c (by rw [hl2]; exact List.mem_cons_self c cs)
      rw [collapseNlGo_one _ hhead]
      rw [ih (fun x hx => hl x (List.mem_cons_of_mem l hx))]
      rfl

theorem headNotNlP_flatT (blocks : List SrtBlock)
    (hwf : ∀ b ∈ blocks, wfBlockB b = true) : headNotNlP (flatT blocks) := by
  cases blocks with
  | nil => exact trivial
  | cons b bs =>
    have hb := hwf b (List.mem_cons_self b bs)
    unfold wfBlockB at hb
    simp only [Bool.and_eq_true] at hb
    obtain ⟨⟨⟨hseq, hts⟩, hlne⟩, hlwf⟩ := hb
    show headNotNlP (lineFlat b.lines ('\n' :: flatT bs))
    cases hls : b.lines with
    | nil => rw [hls] at hlne; cases hlne
    | cons l ls =>
      rw [List.all_eq_true] at hlwf
      obtain ⟨hne, hnl, -, -, -, -⟩ :=
        wfLineB_props (hlwf l (by rw [hls]; exact List.mem_cons_self l ls))
      cases hlc : l with
      | nil => exact absurd hlc hne
      | cons c cs =>
        show headNotNlP ((c :: cs) ++ '\n' :: lineFlat ls ('\n' :: flatT bs))
        exact hnl c (by rw [hlc]; exact List.mem_cons_self c cs)

theorem collapseNl_flatT (blocks : List SrtBlock)
    (hwf : ∀ b ∈ blocks, wfBlockB b = true) :
    collapseNl (flatT blocks) = flatT blocks := by
  unfold collapseNl
  induction blocks with
  | nil => rfl
  | cons b bs ih =>
    have hb := hwf b (List.mem_cons_self b bs)
    unfold wfBlockB at hb
    simp only [Bool.and_eq_true] at hb
    obtain ⟨⟨⟨hseq, hts⟩, hlne⟩, hlwf⟩ := hb
    show collapseNlGo 0 (lineFlat b.lines ('\n' :: flatT bs)) = _
    rw [collapseNlGo_block b.lines (flatT bs) ?hlines
      (headNotNlP_flatT bs (fun x hx => hwf x (List.mem_cons_of_mem b hx)))]
    case hlines =>
      intro l hlmem
      rw [List.all_eq_true] at hlwf
      obtain ⟨hne, hnl, -, -, -, -⟩ := wfLineB_props (hlwf l hlmem)
      exact ⟨hne, hnl⟩
    rw [ih (fun x hx => hwf x (List.mem_cons_of_mem b hx))]
    rfl

/-! Final strip and assembly -/

theorem dropWhile_append_nil {p : Char → Bool} {A : List Char}
    (B : List Char) (h : A.dropWhile p = []) :
    (A ++ B).dropWhile p = B.dropWhile p := by
  induction A with
  | nil => rfl
  | cons a as ih =>
    rw [List.dropWhile_cons] at h
    by_cases hp : p a
    · rw [hp] at h
      simp only [if_true] at h
      rw [List.cons_append, List.dropWhile_cons, hp]
      simp only [if_true]
      exact ih h
    · rw [if_neg (by simp [hp])] at h
      cases h

theorem dropWhile_append_stop {p : Char → Bool} {A : List Char}
    (B : List Char) {c : Char} {rest : List Char}
    (h : A.dropWhile p = c :: rest) :
    (A ++ B).dropWhile p = (c :: rest) ++ B := by
  induction A with
  | nil => cases h
  | cons a as ih =>
    rw [List.dropWhile_cons] at h
    by_cases hp : p a
    · rw [if_pos (by simp [hp])] at h
      rw [List.cons_append, List.dropWhile_cons, if_pos (by simp [hp])]
      exact ih h
    · rw [if_neg (by simp [hp])] at h
      injection h with e1 e2
      subst e1
      subst e2
      rw [List.cons_append, List.dropWhile_cons, if_neg (by simp [hp])]

theorem dropWhile_all_true {p : Char → Bool} {w : List Char}
    (h : ∀ c ∈ w, p c = true) : w.dropWhile p = [] := by
  induction w with
  | nil => rfl
  | cons a as ih =>
    rw [List.dropWhile_cons, if_pos (by simp [h a (List.mem_cons_self a as)])]
    exact ih (fun c hc => h c (List.mem_cons_of_mem a hc))

theorem pyStrip_append_ws {X w : List Char}
    (hw : ∀ c ∈ w, isPySpace c = true) : pyStrip (X ++ w) = pyStrip X := by
  unfold pyStrip
  have hwr : (w.reverse).dropWhile isPySpace = [] := by
    apply dropWhile_all_true
    intro x hx
    rw [List.mem_reverse] at hx
    exact hw x hx
  cases hX : X.dropWhile isPySpace with
  | nil =>
    rw [dropWhile_append_nil w hX, dropWhile_all_true hw]
  | cons c rest =>
    rw [dropWhile_append_stop w hX, List.reverse_append,
      dropWhile_append_nil _ hwr]

theorem pyStrip_id_of_ends (X : List Char)
    (h1 : ∀ c, X.head? = some c → isPySpace c = false)
    (h2 : ∀ c, X.getLast? = some c → isPySpace c = false) :
    pyStrip X = X := by
  unfold pyStrip
  have hfront : X.dropWhile isPySpace = X := by
    cases X with
    | nil => rfl
    | cons c t =>
      rw [List.dropWhile_cons, if_neg (by simp [h1 c rfl])]
  rw [hfront]
  have hback : X.reverse.dropWhile isPySpace = X.reverse := by
    cases hr : X.reverse with
    | nil => rfl
    | cons c t =>
      have : X.getLast? = some c := by
        rw [← List.head?_reverse, hr]
        rfl
      rw [List.dropWhile_cons, if_neg (by simp [h2 c this])]
  rw [hback, List.reverse_reverse]

theorem lineFlat_eq_joinNl (ls : List (List Char)) (tail : List Char)
    (h : ls ≠ []) : lineFlat ls tail = joinNl ls ++ '\n' :: tail := by
  induction ls with
  | nil => exact absurd rfl h
  | cons l ls' ih =>
    cases ls' with
    | nil => rfl
    | cons x xs =>
      show l ++ '\n' :: lineFlat (x :: xs) tail = _
      rw [ih (by simp)]
      show _ = (l ++ '\n' :: joinNl (x :: xs)) ++ '\n' :: tail
      rw [List.append_assoc, List.cons_append]

theorem flatT_decomp (blocks : List SrtBlock)
    (hwf : ∀ b ∈ blocks, wfBlockB b = true) (hne : blocks ≠ []) :
    flatT blocks =
      joinBlank (blocks.map (fun b => joinNl b.lines)) ++ ['\n', '\n'] := by
  induction blocks with
  | nil => exact absurd rfl hne
  | cons b bs ih =>
    have hb := hwf b (List.mem_cons_self b bs)
    unfold wfBlockB at hb
    simp only [Bool.and_eq_true] at hb
    obtain ⟨⟨⟨hseq, hts⟩, hlne⟩, hlwf⟩ := hb
    have hlines_ne : b.lines ≠ [] := by
      intro e
      rw [e] at hlne
      cases hlne
    show lineFlat b.lines ('\n' :: flatT bs) = _
    rw [lineFlat_eq_joinNl b.lines _ hlines_ne]
    cases bs with
    | nil => rfl
    | cons b2 bs2 =>
      rw [ih (fun x hx => hwf x (List.mem_cons_of_mem b hx)) (by simp)]
      show joinNl b.lines ++ '\n' :: '\n' ::
        (joinBlank ((b2 :: bs2).map (fun b => joinNl b.lines)) ++ ['\n', '\n']) = _
      rw [show joinBlank ((b :: b2 :: bs2).map (fun b => joinNl b.lines)) =
        joinNl b.lines ++ '\n' :: '\n' ::
          joinBlank ((b2 :: bs2).map (fun b => joinNl b.lines)) from rfl]
      rw [List.append_assoc, List.cons_append, List.cons_append]

theorem joinNl_cons_form (c : Char) (cs : List Char) (ls : List (List Char)) :
    ∃ t, joinNl ((c :: cs) :: ls) = c :: t := by
  cases ls with
  | nil => exact ⟨cs, rfl⟩
  | cons x xs => exact ⟨cs ++ '\n' :: joinNl (x :: xs), rfl⟩

theorem joinNl_ne_nil (l : List Char) (ls : List (List Char)) (h : l ≠ []) :
    joinNl (l :: ls) ≠ [] := by
  cases l with
  | nil => exact absurd rfl h
  | cons c cs =>
    obtain ⟨t, ht⟩ := joinNl_cons_form c cs ls
    rw [ht]
    simp

theorem joinNl_getLast? (ls : List (List Char)) (h : ∀ l ∈ ls, l ≠ []) :
    ∀ lz, ls.getLast? = some lz → (joinNl ls).getLast? = lz.getLast? := by
  induction ls with
  | nil => intro lz hlz; cases hlz
  | cons l ls' ih =>
    intro lz hlz
    cases ls' with
    | nil =>
      have : lz = l := by
        have : (l :: ([] : List (List Char))).getLast? = some l := rfl
        rw [this] at hlz
        injection hlz with e
        exact e.symm
      subst this
      rfl
    | cons x xs =>
      rw [List.getLast?_cons_cons] at hlz
      show (l ++ '\n' :: joinNl (x :: xs)).getLast? = _
      rw [List.getLast?_append_of_ne_nil l (by simp)]
      have hx : joinNl (x :: xs) ≠ [] :=
        joinNl_ne_nil x xs (h x (List.mem_cons_of_mem l (List.mem_cons_self x xs)))
      rw [show ('\n' :: joinNl (x :: xs) : List Char) =
        ['\n'] ++ joinNl (x :: xs) from rfl]
      rw [List.getLast?_append_of_ne_nil _ hx]
      exact ih (fun q hq => h q (List.mem_cons_of_mem l hq)) lz hlz

theorem partsNoSeq_no_nl (blocks : List SrtBlock)
    (hwf : ∀ b ∈ blocks, wfBlockB b = true) :
    ∀ p ∈ partsNoSeq blocks, ∀ c ∈ p, c ≠ '\n' := by
  induction blocks with
  | nil =>
    intro p hp
    have hpe : p = [] := List.mem_singleton.mp hp
    subst hpe
    intro c hc
    cases hc
  | cons b bs ih =>
    have hb := hwf b (List.mem_cons_self b bs)
    unfold wfBlockB at hb
    simp only [Bool.and_eq_true] at hb
    obtain ⟨⟨⟨hseq, hts⟩, hlne⟩, hlwf⟩ := hb
    intro p hp
    rw [show partsNoSeq (b :: bs) = b.ts :: (b.lines ++ [] :: partsNoSeq bs)
      from rfl, List.mem_cons, List.mem_append, List.mem_cons] at hp
    rcases hp with hp | hp | hp | hp
    · subst hp
      exact (tsShape29_props hts).2.1
    · rw [List.all_eq_true] at hlwf
      exact (wfLineB_props (hlwf p hp)).2.1
    · subst hp
      intro c hc
      cases hc
    · exact ih (fun x hx => hwf x (List.mem_cons_of_mem b hx)) p hp

theorem joinBlank_cons_form (c : Char) (cs : List Char)
    (ls : List (List Char)) : ∃ t, joinBlank ((c :: cs) :: ls) = c :: t := by
  cases ls with
  | nil => exact ⟨cs, rfl⟩
  | cons x xs => exact ⟨cs ++ '\n' :: '\n' :: joinBlank (x :: xs), rfl⟩

theorem joinBlank_ne_nil (l : List Char) (ls : List (List Char)) (h : l ≠ []) :
    joinBlank (l :: ls) ≠ [] := by
  cases l with
  | nil => exact absurd rfl h
  | cons c cs =>
    obtain ⟨t, ht⟩ := joinBlank_cons_form c cs ls
    rw [ht]
    simp

theorem joinBlank_getLast? (ls : List (List Char)) (h : ∀ l ∈ ls, l ≠ []) :
    ∀ lz, ls.getLast? = some lz → (joinBlank ls).getLast? = lz.getLast? := by
  induction ls with
  | nil => intro lz hlz; cases hlz
  | cons l ls' ih =>
    intro lz hlz
    cases ls' with
    | nil =>
      have he : lz = l := by
        have h0 : (l :: ([] : List (List Char))).getLast? = some l := rfl
        rw [h0] at hlz
        injection hlz with e
        exact e.symm
      subst he
      rfl
    | cons x xs =>
      rw [List.getLast?_cons_cons] at hlz
      show (l ++ '\n' :: '\n' :: joinBlank (x :: xs)).getLast? = _
      rw [List.getLast?_append_of_ne_nil l (by simp)]
      have hx : joinBlank (x :: xs) ≠ [] :=
        joinBlank_ne_nil x xs (h x (List.mem_cons_of_mem l (List.mem_cons_self x xs)))
      rw [show ('\n' :: '\n' :: joinBlank (x :: xs) : List Char) =
        ['\n', '\n'] ++ joinBlank (x :: xs) from rfl]
      rw [List.getLast?_append_of_ne_nil _ hx]
      exact ih (fun q hq => h q (List.mem_cons_of_mem l hq)) lz hlz

theorem joinBlank_head_not_space (ls : List (List Char))
    (hhd : ∀ l, ls.head? = some l → headNotSpace l = true) :
    ∀ c, (joinBlank ls).head? = some c → isPySpace c = false := by
  intro c hc
  cases ls with
  | nil => cases hc
  | cons l ls' =>
    have hl := hhd l rfl
    cases l with
    | nil => cases hl
    | cons a as =>
      obtain ⟨t, ht⟩ := joinBlank_cons_form a as ls'
      rw [ht] at hc
      have hca : a = c := by injection hc
      subst hca
      unfold headNotSpace at hl
      simpa using hl

theorem joinBlank_last_not_space (ls : List (List Char))
    (hne : ∀ l ∈ ls, l ≠ [])
    (hlast : ∀ l, ls.getLast? = some l → lastNotSpace l = true) :
    ∀ c, (joinBlank ls).getLast? = some c → isPySpace c = false := by
  intro c hc
  cases ls with
  | nil => cases hc
  | cons l ls' =>
    obtain ⟨lz, hlz⟩ := Option.isSome_iff_exists.mp
      (List.getLast?_isSome.mpr (List.cons_ne_nil l ls'))
    rw [joinBlank_getLast? (l :: ls') hne lz hlz] at hc
    have hl := hlast lz hlz
    unfold lastNotSpace at hl
    rw [hc] at hl
    simpa using hl

theorem joinNl_lines_ne_nil (b : SrtBlock) (hb : wfBlockB b = true) :
    joinNl b.lines ≠ [] := by
  unfold wfBlockB at hb
  simp only [Bool.and_eq_true] at hb
  obtain ⟨⟨⟨hseq, hts⟩, hlne⟩, hlwf⟩ := hb
  cases hl : b.lines with
  | nil => rw [hl] at hlne; cases hlne
  | cons l rest =>
    apply joinNl_ne_nil
    rw [List.all_eq_true] at hlwf
    exact (wfLineB_props (hlwf l (by rw [hl]; exact List.mem_cons_self l rest))).1

theorem joinNl_head_not_space (b : SrtBlock) (hb : wfBlockB b = true) :
    headNotSpace (joinNl b.lines) = true := by
  unfold wfBlockB at hb
  simp only [Bool.and_eq_true] at hb
  obtain ⟨⟨⟨hseq, hts⟩, hlne⟩, hlwf⟩ := hb
  cases hl : b.lines with
  | nil => rw [hl] at hlne; cases hlne
  | cons l rest =>
    rw [List.all_eq_true] at hlwf
    have hlp := wfLineB_props (hlwf l (by rw [hl]; exact List.mem_cons_self l rest))
    cases hlc : l with
    | nil => exact absurd hlc hlp.1
    | cons a as =>
      obtain ⟨t, ht⟩ := joinNl_cons_form a as rest
      rw [ht]
      have := hlp.2.2.2.2.1
      rw [hlc] at this
      unfold headNotSpace at this ⊢
      exact this

theorem joinNl_last_not_space (b : SrtBlock) (hb : wfBlockB b = true) :
    lastNotSpace (joinNl b.lines) = true := by
  unfold wfBlockB at hb
  simp only [Bool.and_eq_true] at hb
  obtain ⟨⟨⟨hseq, hts⟩, hlne⟩, hlwf⟩ := hb
  rw [List.all_eq_true] at hlwf
  have hbne : b.lines ≠ [] := by
    intro e
    rw [e] at hlne
    cases hlne
  obtain ⟨lz, hlz⟩ := Option.isSome_iff_exists.mp (List.getLast?_isSome.mpr hbne)
  have h2 := joinNl_getLast? b.lines (fun l hl => (wfLineB_props (hlwf l hl)).1) lz hlz
  have hmem : lz ∈ b.lines := List.mem_of_mem_getLast? (Option.mem_def.mpr hlz)
  have h3 := (wfLineB_props (hlwf lz hmem)).2.2.2.2.2
  unfold lastNotSpace at h3 ⊢
  rw [h2]
  exact h3

theorem emitNlRun_ge3 (k : Nat) (h : 3 ≤ k) : emitNlRun k = ['\n', '\n'] := by
  unfold emitNlRun
  rw [if_pos h]

theorem collapseNlGo_replicate (m : Nat) :
    ∀ (n : Nat) (b : List Char),
      collapseNlGo n (List.replicate m '\n' ++ b) = collapseNlGo (n + m) b := by
  induction m with
  | zero => intro n b; rfl
  | succ m ih =>
    intro n b
    rw [List.replicate_succ, List.cons_append]
    show collapseNlGo (n + 1) (List.replicate m '\n' ++ b) = _
    rw [ih (n + 1) b, show n + 1 + m = n + (m + 1) from by omega]

theorem collapseNlGo_no_nl (b : List Char) (hb : ∀ c ∈ b, c ≠ '\n') :
    ∀ n, collapseNlGo n b = emitNlRun n ++ b := by
  induction b with
  | nil =>
    intro n
    rw [show collapseNlGo n [] = emitNlRun n from rfl, List.append_nil]
  | cons c cs ih =>
    intro n
    rw [collapseNlGo_cons_ne n c cs (hb c (List.mem_cons_self c cs))]
    rw [ih (fun x hx => hb x (List.mem_cons_of_mem c hx)) 0]
    rw [show emitNlRun 0 = [] from rfl, List.nil_append]

/-- **C7** — On every well-formed SRT document, `srt_to_plain_text`
removes all sequence-number lines and all timestamp lines and preserves
the spoken-text lines verbatim and in order (the result is exactly the
blocks' spoken lines joined by one blank line between blocks); and the
newline-collapsing pass rewrites every run of three or more consecutive
newlines between newline-free contexts to exactly one blank line. -/
theorem srt_to_plain_text_spec (blocks : List SrtBlock)
    (hwf : ∀ b ∈ blocks, wfBlockB b = true) :
    srt_to_plain_text (renderSrt blocks) =
      joinBlank (blocks.map (fun b => joinNl b.lines)) ∧
    ∀ (a b : List Char) (k : Nat), 3 ≤ k → '\n' ∉ a → '\n' ∉ b →
      collapseNl (a ++ List.replicate k '\n' ++ b) =
        a ++ '\n' :: '\n' :: b := by
  constructor
  · unfold srt_to_plain_text stripSeqNums
    rw [splitOnNl_renderSrt hwf, keepNonSeq_partsOf hwf,
      splitOnNl_joinNl (partsNoSeq blocks) (partsNoSeq_no_nl blocks hwf)
        (partsNoSeq_ne_nil blocks),
      stripTsParts_partsNoSeq hwf, collapseNl_flatT blocks hwf]
    cases blocks with
    | nil => rfl
    | cons b bs =>
      rw [flatT_decomp (b :: bs) hwf (List.cons_ne_nil b bs)]
      rw [pyStrip_append_ws (by decide)]
      apply pyStrip_id_of_ends
      · apply joinBlank_head_not_space
        intro l hl
        have hle : joinNl b.lines = l := by
          rw [show ((b :: bs).map (fun b => joinNl b.lines)).head? =
            some (joinNl b.lines) from rfl] at hl
          injection hl
        rw [← hle]
        exact joinNl_head_not_space b (hwf b (List.mem_cons_self b bs))
      · apply joinBlank_last_not_space
        · intro x hx
          obtain ⟨b', hb', he⟩ := List.mem_map.mp hx
          rw [← he]
          exact joinNl_lines_ne_nil b' (hwf b' hb')
        · intro l hl
          rw [List.getLast?_map] at hl
          obtain ⟨bz, hbz⟩ := Option.isSome_iff_exists.mp
            (List.getLast?_isSome.mpr (List.cons_ne_nil b bs))
          rw [hbz] at hl
          have hle : joinNl bz.lines = l := by
            injection hl
          rw [← hle]
          exact joinNl_last_not_space bz
            (hwf bz (List.mem_of_mem_getLast? (Option.mem_def.mpr hbz)))
  · intro a b k hk ha hb
    unfold collapseNl
    rw [List.append_assoc,
      collapseNlGo_line a (fun c hc e => ha (e ▸ hc)) _,
      collapseNlGo_replicate k 0 b, Nat.zero_add,
      collapseNlGo_no_nl b (fun c hc e => hb (e ▸ hc)) k,
      emitNlRun_ge3 k hk]
    rfl

theorem srt_to_plain_text_spec_witness :
    ([wBlock1, wBlock2].all wfBlockB = true) ∧
    srt_to_plain_text (renderSrt [wBlock1, wBlock2]) =
      joinBlank ([wBlock1, wBlock2].map (fun b => joinNl b.lines)) :=
  ⟨by decide, (srt_to_plain_text_spec [wBlock1, wBlock2] (by decide)).1⟩

end YTTool
